import Mathlib

/-!
Verification of the chronological train/forecast split and leakage-safe
feature engineering of `06_train_test_split.ipynb`
(smart-meter-energy-forecasting).

The notebook's pandas DataFrame is embedded shallowly: a table is a list of
rows, each row a timestamp index value together with an association list from
column name to cell, where a cell is `Option ℚ` (`none` models pandas `NaN`).
Column assignment `df[c] = series` overwrites an existing column in place or
appends a new one, exactly as pandas does.  All definitions are executable.
-/

/-- A table cell: `some q` a number, `none` a missing value (pandas `NaN`). -/
abbrev Cell := Option ℚ

/-- One row of the DataFrame: the timestamp index value and the columns as an
association list from column name to cell. -/
abbrev Row := ℕ × List (String × Cell)

/-- A DataFrame indexed by timestamps: a list of rows. -/
abbrev Table := List Row

/-- Column read inside one row; an absent column reads as missing.  (Pandas
raises `KeyError` on an absent column; every column the notebook reads is
present in its tables, so the two semantics agree on the notebook's runs.) -/
def lookupCol : List (String × Cell) → String → Cell
  | [], _ => none
  | (c', v) :: rest, c => if c = c' then v else lookupCol rest c

/-- The column names of one row. -/
def colNames (cs : List (String × Cell)) : List String := cs.map Prod.fst

/-- Insert-or-overwrite one column of one row, as a pandas column assignment
does: an existing column keeps its position, a new one is appended. -/
def insertCol : List (String × Cell) → String → Cell → List (String × Cell)
  | [], c, v => [(c, v)]
  | (c', v') :: rest, c, v =>
      if c = c' then (c, v) :: rest else (c', v') :: insertCol rest c v

/-- Column assignment `df[c] = vals`, the value list aligned positionally with
the rows (in the notebook every assigned series is derived from the same
frame, so positional and index alignment coincide). -/
def setCol : Table → String → List Cell → Table
  | [], _, _ => []
  | r :: rs, _, [] => r :: rs
  | r :: rs, c, v :: vs => (r.1, insertCol r.2 c v) :: setCol rs c vs

/-- Read column `c` of the table (`df[c]`) as a list of cells. -/
def getCol (t : Table) (c : String) : List Cell :=
  t.map (fun r => lookupCol r.2 c)

/-- The timestamp index of the table (`df.index`). -/
def tsIndex (t : Table) : List ℕ := t.map Prod.fst

/-- `series.shift(k)`: the first `k` entries become missing, the remaining
entries move down by `k`; the length is preserved. -/
def shift (k : ℕ) (l : List Cell) : List Cell :=
  List.replicate (min k l.length) none ++ l.take (l.length - k)

/-- `series.rolling(window=w).mean()`: at position `i`, the mean of the `w`
entries ending at position `i`; missing when fewer than `w` entries exist or
any entry of the window is missing (pandas default `min_periods = window`). -/
def rollingMean (w : ℕ) (l : List Cell) : List Cell :=
  (List.range l.length).map (fun i =>
    if w ≤ i + 1 then
      let window := (l.drop (i + 1 - w)).take w
      if window.all Option.isSome then
        some ((window.map (fun o => o.getD 0)).sum / (w : ℚ))
      else none
    else none)

/-- `df.tail(n)`: the last `n` rows (the whole table when shorter). -/
def tailN (n : ℕ) (t : Table) : Table := t.drop (t.length - n)

/-- The column names of a table, in order of first appearance. -/
def colsOf (t : Table) : List String :=
  t.foldl (fun acc r => acc ++ (colNames r.2).filter (fun c => !acc.contains c)) []

/-- Pad one row with explicit missing entries for listed columns it lacks. -/
def padCols (cols : List String) (cs : List (String × Cell)) : List (String × Cell) :=
  cs ++ (cols.filter (fun c => !(colNames cs).contains c)).map (fun c => (c, (none : Cell)))

/-- `pd.concat([a, b])`: stack the rows; a row lacking a column of the union
carries an explicit missing value there, as pandas fills `NaN`. -/
def concatTables (a b : Table) : Table :=
  (a.map (fun r => (r.1, padCols (colsOf (a ++ b)) r.2))) ++
    (b.map (fun r => (r.1, padCols (colsOf (a ++ b)) r.2)))

/-- Row order by timestamp, for `df.sort_index()`. -/
def rowLe (a b : Row) : Prop := a.1 ≤ b.1

instance : DecidableRel rowLe := fun a b => Nat.decLe a.1 b.1

instance : IsTotal Row rowLe := ⟨fun a b => Nat.le_total a.1 b.1⟩

instance : IsTrans Row rowLe := ⟨fun _ _ _ h1 h2 => Nat.le_trans h1 h2⟩

/-- Cell 5: `df = df.sort_index()` — sort the rows ascending by timestamp. -/
def sortIndex (t : Table) : Table := List.insertionSort rowLe t

/-- The target column of the notebook. -/
def targetCol : String := "use_house_overall"

/-- The f-string `f"lag_\x7blag\x7d"` of cell 7. -/
def lagName (k : ℕ) : String := "lag_" ++ toString k

/-- The f-string `f"roll_mean_\x7bwin\x7d"` of cell 7. -/
def rollName (w : ℕ) : String := "roll_mean_" ++ toString w

/-- The first loop of cell 7: for each `lag` in `lags`,
`df[f"lag_\x7blag\x7d"] = df["use_house_overall"].shift(lag)`. -/
def lagFold (lags : List ℕ) (df : Table) : Table :=
  lags.foldl (fun t lag => setCol t (lagName lag) (shift lag (getCol t targetCol))) df

/-- The second loop of cell 7: for each `win` in `roll_windows`,
`df[f"roll_mean_\x7bwin\x7d"] = df["use_house_overall"].shift(1).rolling(window=win).mean()`. -/
def rollFold (roll_windows : List ℕ) (df : Table) : Table :=
  roll_windows.foldl
    (fun t win => setCol t (rollName win)
      (rollingMean win (shift 1 (getCol t targetCol)))) df

/-- Cell 7, `create_lag_features(df, lags, roll_windows)`: the two loops in
sequence.  (`df.copy()` is implicit: the embedding is pure.) -/
def create_lag_features (df : Table) (lags roll_windows : List ℕ) : Table :=
  rollFold roll_windows (lagFold lags df)

/-- The `appliance_cols` list of cell 9. -/
def applianceCols : List String :=
  ["winecellar", "barn", "fridge", "well", "dishwasher", "microwave"]

/-- The hour set of the `is_night` flag of cell 9. -/
def nightHours : List ℚ := [0, 1, 2, 3, 4, 5, 6, 22, 23]

/-- Pandas row-wise `sum`/comparison semantics: a missing value counts as 0. -/
def cellVal (o : Cell) : ℚ := o.getD 0

/-- One row of cell 9's `enrich_features`.  Every derived column except
`net_energy_lag_1` reads only the row itself; `net_energy_lag_1` also needs
`generated_solar` of the previous row (`.shift(1)`), passed in as `prevSolar`.
`doy` abstracts `df.index.dayofyear`, and `sinF`, `cosF` abstract the
floating-point maps `x ↦ np.sin(2·π·x/365)` and `x ↦ np.cos(2·π·x/365)`. -/
def enrichRow (doy : ℕ → ℚ) (sinF cosF : ℚ → ℚ) (prevSolar : Cell) (r : Row) : Row :=
  let d : ℚ := doy r.1
  let cs := r.2
  -- df["appliance_sum"] = df[appliance_cols].sum(axis=1)   (sum skips missing)
  let cs := insertCol cs "appliance_sum"
    (some ((applianceCols.map (fun c => cellVal (lookupCol r.2 c))).sum))
  -- df["furnace_on"] = (df["furnace"] > 0).astype(int)   (missing compares False)
  let cs := insertCol cs "furnace_on"
    (some (if 0 < cellVal (lookupCol r.2 "furnace") then 1 else 0))
  -- df["net_energy_lag_1"] = df["lag_1"] - df["generated_solar"].shift(1)
  let cs := insertCol cs "net_energy_lag_1"
    ((lookupCol r.2 "lag_1").bind (fun a => prevSolar.map (fun b => a - b)))
  -- df["hour_block"] = df["hour"] // 4   (floor division)
  let cs := insertCol cs "hour_block"
    ((lookupCol r.2 "hour").map (fun h => ((Int.floor (h / 4) : ℤ) : ℚ)))
  -- df["is_weekend"] = df[["wd_Saturday", "wd_Sunday"]].sum(axis=1).clip(upper=1)
  let cs := insertCol cs "is_weekend"
    (some (min (cellVal (lookupCol r.2 "wd_Saturday") + cellVal (lookupCol r.2 "wd_Sunday")) 1))
  -- df["is_night"] = df["hour"].isin([0,1,2,3,4,5,6,22,23]).astype(int)
  let cs := insertCol cs "is_night"
    (some (if (lookupCol r.2 "hour").any (fun h => nightHours.contains h) then 1 else 0))
  -- df["dayofyear"] = df.index.dayofyear
  let cs := insertCol cs "dayofyear" (some d)
  -- df["dayofyear_sin"] = np.sin(2 * np.pi * df["dayofyear"] / 365)
  let cs := insertCol cs "dayofyear_sin" (some (sinF d))
  -- df["dayofyear_cos"] = np.cos(2 * np.pi * df["dayofyear"] / 365)
  let cs := insertCol cs "dayofyear_cos" (some (cosF d))
  (r.1, cs)

/-- Cell 9, `enrich_features(df)`: the `generated_solar.shift(1)` series is
zipped alongside the rows; every other derivation is row-local.
(`df.copy()` is implicit: the embedding is pure.) -/
def enrich_features (doy : ℕ → ℚ) (sinF cosF : ℚ → ℚ) (df : Table) : Table :=
  List.zipWith (fun r ps => enrichRow doy sinF cosF ps r)
    df (shift 1 (getCol df "generated_solar"))

/-- Cell 8 lag list for the training segment. -/
def trainLags : List ℕ := [1, 2, 3, 6, 12, 24, 48]

/-- Cell 8 rolling-window list for the training segment. -/
def trainWins : List ℕ := [3, 6, 12, 24]

/-- Cell 8 lag list for the forecast segment. -/
def forecastLags : List ℕ := [1, 2, 3]

/-- Cell 8 rolling-window list for the forecast segment. -/
def forecastWins : List ℕ := [3, 6, 12]

/-- Cell 6: `split_index = int(len(df) * 0.9)`.  Exact arithmetic: for this
ratio the float product `len(df) * 0.9` always truncates to `⌊len·9/10⌋`,
which in ℕ is `len * 9 / 10`. -/
def split_index (t : Table) : ℕ := t.length * 9 / 10

/-- Cells 5–6: `train_df = df.iloc[:split_index]` after `df.sort_index()`. -/
def train_df_raw (t : Table) : Table :=
  (sortIndex t).take (split_index (sortIndex t))

/-- Cell 6: `forecast_df = df.iloc[split_index:]`. -/
def forecast_df_raw (t : Table) : Table :=
  (sortIndex t).drop (split_index (sortIndex t))

/-- Cell 8: `train_df = create_lag_features(train_df, lags=[1, 2, 3, 6, 12, 24, 48],
roll_windows=[3, 6, 12, 24])`. -/
def train_df (t : Table) : Table :=
  create_lag_features (train_df_raw t) trainLags trainWins

/-- Cell 8: `create_lag_features(pd.concat([train_df.tail(12), forecast_df]),
lags=[1, 2, 3], roll_windows=[3, 6, 12])`. -/
def forecast_df_pre (t : Table) : Table :=
  create_lag_features (concatTables (tailN 12 (train_df t)) (forecast_df_raw t))
    forecastLags forecastWins

/-- Cell 8: `forecast_df = forecast_df.loc[forecast_df.index.difference(train_df.index)]`.
`Index.difference` also sorts its result; on the strictly increasing indices
of this pipeline the selection is order-preserving, hence a filter. -/
def forecast_df (t : Table) : Table :=
  (forecast_df_pre t).filter (fun r => !(tsIndex (train_df t)).contains r.1)

/-- Cell 10: `train_df = enrich_features(train_df)`. -/
def train_enriched (doy : ℕ → ℚ) (sinF cosF : ℚ → ℚ) (t : Table) : Table :=
  enrich_features doy sinF cosF (train_df t)

/-- Cell 10: `forecast_df = enrich_features(forecast_df)`. -/
def forecast_enriched (doy : ℕ → ℚ) (sinF cosF : ℚ → ℚ) (t : Table) : Table :=
  enrich_features doy sinF cosF (forecast_df t)

/-- Modelled from the spec: §4.1 describes the splitter for a general ratio
`r` with `0 < r < 1` ("returns a training subsequence = the first `⌊N·r⌋`
rows and a forecast subsequence = the remaining rows"); the notebook hardcodes
`r = 0.9` in cell 6. -/
def chronoSplit (r : ℚ) (t : Table) : Table × Table :=
  (t.take (Nat.floor ((t.length : ℚ) * r)), t.drop (Nat.floor ((t.length : ℚ) * r)))

/-- The forecast feature construction as claim C6 words it: a spillover of
`max(lags)` rows of the training segment instead of the implemented
`train_df.tail(12)`.  Stated from the spec's words for comparison only. -/
def forecast_df_pre_specC6 (t : Table) : Table :=
  create_lag_features
    (concatTables (tailN (forecastLags.foldl max 0) (train_df t)) (forecast_df_raw t))
    forecastLags forecastWins

/-- The spec-worded forecast output of claim C6 after the discard step. -/
def forecast_df_specC6 (t : Table) : Table :=
  (forecast_df_pre_specC6 t).filter (fun r => !(tsIndex (train_df t)).contains r.1)

/-! ### Basic lemmas on the table primitives -/

theorem lookupCol_insertCol_self (l : List (String × Cell)) (c : String) (v : Cell) :
    lookupCol (insertCol l c v) c = v := by
  induction l with
  | nil => simp [insertCol, lookupCol]
  | cons p rest ih =>
    by_cases h : c = p.1
    · simp [insertCol, lookupCol, h]
    · simp [insertCol, lookupCol, h, ih]

theorem lookupCol_insertCol_ne (l : List (String × Cell)) {c c' : String} (v : Cell)
    (h : c ≠ c') : lookupCol (insertCol l c' v) c = lookupCol l c := by
  induction l with
  | nil => simp [insertCol, lookupCol, h]
  | cons p rest ih =>
    by_cases h2 : c' = p.1
    · subst h2
      simp [insertCol, lookupCol, h]
    · by_cases h3 : c = p.1
      · simp [insertCol, lookupCol, h2, h3]
      · simp [insertCol, lookupCol, h2, h3, ih]

theorem insertCol_cons_eq (p : String × Cell) (rest : List (String × Cell))
    (c : String) (v : Cell) (h : c = p.1) :
    insertCol (p :: rest) c v = (c, v) :: rest := by
  cases p
  simp_all [insertCol]

theorem insertCol_cons_ne (p : String × Cell) (rest : List (String × Cell))
    (c : String) (v : Cell) (h : c ≠ p.1) :
    insertCol (p :: rest) c v = p :: insertCol rest c v := by
  cases p
  simp_all [insertCol]

theorem mem_colNames_insertCol_self (l : List (String × Cell)) (c : String) (v : Cell) :
    c ∈ colNames (insertCol l c v) := by
  induction l with
  | nil => simp [insertCol, colNames]
  | cons p rest ih =>
    by_cases h : c = p.1
    · rw [insertCol_cons_eq p rest c v h]
      simp [colNames]
    · rw [insertCol_cons_ne p rest c v h]
      simp only [colNames, List.map_cons, List.mem_cons]
      exact Or.inr ih

theorem mem_colNames_insertCol_of_mem (l : List (String × Cell)) {c : String}
    (c' : String) (v : Cell) (h : c ∈ colNames l) :
    c ∈ colNames (insertCol l c' v) := by
  induction l with
  | nil => simp [colNames] at h
  | cons p rest ih =>
    rcases (by simpa only [colNames, List.map_cons, List.mem_cons] using h :
        c = p.1 ∨ c ∈ colNames rest) with h3 | h3
    · by_cases h2 : c' = p.1
      · rw [insertCol_cons_eq p rest c' v h2]
        simp [colNames, h3, h2]
      · rw [insertCol_cons_ne p rest c' v h2]
        simp [colNames, h3]
    · by_cases h2 : c' = p.1
      · rw [insertCol_cons_eq p rest c' v h2]
        simp only [colNames, List.map_cons, List.mem_cons]
        exact Or.inr h3
      · rw [insertCol_cons_ne p rest c' v h2]
        simp only [colNames, List.map_cons, List.mem_cons]
        exact Or.inr (ih h3)

theorem insertCol_lookup_eq_self {l : List (String × Cell)} {c : String} {v : Cell}
    (hmem : c ∈ colNames l) (hval : lookupCol l c = v) : insertCol l c v = l := by
  induction l with
  | nil => simp [colNames] at hmem
  | cons p rest ih =>
    by_cases h : c = p.1
    · subst h
      simp [lookupCol] at hval
      simp [insertCol, ← hval]
    · have hmem' : c ∈ colNames rest := by
        rcases (by simpa [colNames] using hmem : c = p.1 ∨ c ∈ colNames rest) with h3 | h3
        · exact absurd h3 h
        · exact h3
      have hval' : lookupCol rest c = v := by simpa [lookupCol, h] using hval
      simp [insertCol, h, ih hmem' hval']

theorem setCol_length (t : Table) (c : String) (vs : List Cell) :
    (setCol t c vs).length = t.length := by
  induction t generalizing vs with
  | nil => simp [setCol]
  | cons r rs ih =>
    cases vs with
    | nil => simp [setCol]
    | cons v vs => simp [setCol, ih]

theorem tsIndex_setCol (t : Table) (c : String) (vs : List Cell) :
    tsIndex (setCol t c vs) = tsIndex t := by
  induction t generalizing vs with
  | nil => simp [setCol]
  | cons r rs ih =>
    cases vs with
    | nil => simp [setCol]
    | cons v vs =>
      simp only [setCol, tsIndex, List.map_cons]
      have := ih vs
      simp only [tsIndex] at this
      rw [this]

theorem getCol_length (t : Table) (c : String) : (getCol t c).length = t.length := by
  simp [getCol]

theorem tsIndex_length (t : Table) : (tsIndex t).length = t.length := by
  simp [tsIndex]

theorem getCol_setCol_self {t : Table} {c : String} {vs : List Cell}
    (h : vs.length = t.length) : getCol (setCol t c vs) c = vs := by
  induction t generalizing vs with
  | nil =>
    simp at h
    subst h
    rfl
  | cons r rs ih =>
    cases vs with
    | nil => simp at h
    | cons v vs =>
      simp at h
      simp [setCol, getCol, lookupCol_insertCol_self]
      exact ih h

theorem getCol_setCol_ne {t : Table} {c c' : String} {vs : List Cell}
    (h : c ≠ c') : getCol (setCol t c' vs) c = getCol t c := by
  induction t generalizing vs with
  | nil => simp [setCol]
  | cons r rs ih =>
    cases vs with
    | nil => simp [setCol]
    | cons v vs =>
      simp [setCol, getCol, lookupCol_insertCol_ne _ _ h]
      exact ih

theorem getCol_take (t : Table) (c : String) (n : ℕ) :
    getCol (t.take n) c = (getCol t c).take n := by
  simp [getCol, List.map_take]

theorem getCol_drop (t : Table) (c : String) (n : ℕ) :
    getCol (t.drop n) c = (getCol t c).drop n := by
  simp [getCol, List.map_drop]

theorem tsIndex_take (t : Table) (n : ℕ) : tsIndex (t.take n) = (tsIndex t).take n := by
  simp [tsIndex, List.map_take]

theorem tsIndex_drop (t : Table) (n : ℕ) : tsIndex (t.drop n) = (tsIndex t).drop n := by
  simp [tsIndex, List.map_drop]

theorem getCol_append (a b : Table) (c : String) :
    getCol (a ++ b) c = getCol a c ++ getCol b c := by
  simp [getCol]

theorem tsIndex_append (a b : Table) : tsIndex (a ++ b) = tsIndex a ++ tsIndex b := by
  simp [tsIndex]

/-! ### `shift` and `rollingMean` -/

theorem shift_length (k : ℕ) (l : List Cell) : (shift k l).length = l.length := by
  simp [shift]
  omega

theorem shift_getElem?_lt {k i : ℕ} {l : List Cell} (h1 : i < k) (h2 : i < l.length) :
    (shift k l)[i]? = some none := by
  have hmin : i < min k l.length := lt_min h1 h2
  simp [shift, List.getElem?_append, hmin, List.getElem?_replicate]

theorem shift_getElem?_ge {k i : ℕ} {l : List Cell} (h1 : k ≤ i) (h2 : i < l.length) :
    (shift k l)[i]? = l[i - k]? := by
  have hk : k < l.length := lt_of_le_of_lt h1 h2
  have hmin : min k l.length = k := min_eq_left (le_of_lt hk)
  have hlen : (List.replicate (min k l.length) (none : Cell)).length = k := by
    simp [hmin]
  rw [shift, List.getElem?_append_right (by simpa [hlen] using h1), hlen]
  rw [List.getElem?_take, if_pos (by omega)]

theorem rollingMean_length (w : ℕ) (l : List Cell) : (rollingMean w l).length = l.length := by
  simp [rollingMean]

theorem rollingMean_getElem? {w i : ℕ} {l : List Cell} (h : i < l.length) :
    (rollingMean w l)[i]? = some (if w ≤ i + 1 then
      (if ((l.drop (i + 1 - w)).take w).all Option.isSome then
        some ((((l.drop (i + 1 - w)).take w).map (fun o => o.getD 0)).sum / (w : ℚ))
      else none)
    else none) := by
  simp [rollingMean, List.getElem?_map, List.getElem?_range h]

/-- Insufficient history: `shift(1).rolling(w).mean()` is missing on each of
the first `w` positions. -/
theorem rollingMean_shift1_getElem?_lt {w i : ℕ} {l : List Cell}
    (h1 : i < w) (h2 : i < l.length) :
    (rollingMean w (shift 1 l))[i]? = some none := by
  have hlen : (shift 1 l).length = l.length := shift_length 1 l
  rw [rollingMean_getElem? (by omega)]
  by_cases hw : w ≤ i + 1
  · -- then i + 1 = w and the window starts at position 0, which is missing
    have hiw : i + 1 - w = 0 := by omega
    have h0 : (shift 1 l)[0]? = some none :=
      shift_getElem?_lt (by omega) (by omega)
    have hmem : (none : Cell) ∈ ((shift 1 l).drop (i + 1 - w)).take w := by
      rw [hiw, List.drop_zero]
      have h0' : ((shift 1 l).take w)[0]? = some none := by
        rw [List.getElem?_take, if_pos (by omega)]
        exact h0
      exact List.getElem?_mem h0'
    have hall : (((shift 1 l).drop (i + 1 - w)).take w).all Option.isSome = false := by
      rw [List.all_eq_false]
      exact ⟨none, hmem, by simp⟩
    simp [hw, hall]
  · simp [hw]

/-! ### The generated column names are distinct from each other and from the
source columns -/

theorem lagName_ne_target (k : ℕ) : lagName k ≠ targetCol := by
  intro h
  have h2 : ("lag_" ++ toString k).data = targetCol.data := congrArg String.data h
  rw [String.data_append] at h2
  simp [targetCol] at h2

theorem rollName_ne_target (w : ℕ) : rollName w ≠ targetCol := by
  intro h
  have h2 : ("roll_mean_" ++ toString w).data = targetCol.data := congrArg String.data h
  rw [String.data_append] at h2
  simp [targetCol] at h2

theorem rollName_ne_lagName (w k : ℕ) : rollName w ≠ lagName k := by
  intro h
  have h2 := congrArg String.data h
  rw [rollName, lagName, String.data_append, String.data_append] at h2
  simp at h2

/-! ### Characterization of `create_lag_features` -/

theorem lagFold_getCol_other (ks : List ℕ) (t : Table) {c : String}
    (h : ∀ k ∈ ks, lagName k ≠ c) : getCol (lagFold ks t) c = getCol t c := by
  induction ks generalizing t with
  | nil => rfl
  | cons a as ih =>
    have step : getCol (lagFold as (setCol t (lagName a) (shift a (getCol t targetCol)))) c
        = getCol t c := by
      rw [ih _ (fun k hk => h k (List.mem_cons_of_mem a hk)),
        getCol_setCol_ne (Ne.symm (h a (List.mem_cons_self a as)))]
    exact step

theorem lagFold_getCol_target (ks : List ℕ) (t : Table) :
    getCol (lagFold ks t) targetCol = getCol t targetCol :=
  lagFold_getCol_other ks t (fun k _ => lagName_ne_target k)

theorem lagFold_length (ks : List ℕ) (t : Table) : (lagFold ks t).length = t.length := by
  induction ks generalizing t with
  | nil => rfl
  | cons a as ih =>
    exact (ih _).trans (setCol_length _ _ _)

theorem tsIndex_lagFold (ks : List ℕ) (t : Table) : tsIndex (lagFold ks t) = tsIndex t := by
  induction ks generalizing t with
  | nil => rfl
  | cons a as ih =>
    exact (ih _).trans (tsIndex_setCol _ _ _)

theorem lagFold_getCol_lag (ks : List ℕ) (t : Table) {k : ℕ} (hk : k ∈ ks)
    (hnd : (ks.map lagName).Nodup) :
    getCol (lagFold ks t) (lagName k) = shift k (getCol t targetCol) := by
  induction ks generalizing t with
  | nil => cases hk
  | cons a as ih =>
    rcases List.mem_cons.mp hk with rfl | hk'
    · have hno : ∀ k' ∈ as, lagName k' ≠ lagName k := by
        intro k' hk' hc
        have hnm : lagName k ∉ as.map lagName := (List.nodup_cons.mp hnd).1
        exact hnm (hc ▸ List.mem_map_of_mem lagName hk')
      have step : getCol (lagFold as (setCol t (lagName k) (shift k (getCol t targetCol))))
          (lagName k) = shift k (getCol t targetCol) := by
        rw [lagFold_getCol_other as _ hno,
          getCol_setCol_self (by rw [shift_length, getCol_length])]
      exact step
    · have step : getCol (lagFold as (setCol t (lagName a) (shift a (getCol t targetCol))))
          (lagName k) = shift k (getCol t targetCol) := by
        rw [ih _ hk' (List.nodup_cons.mp hnd).2,
          getCol_setCol_ne (Ne.symm (lagName_ne_target a))]
      exact step

theorem rollFold_getCol_other (ws : List ℕ) (t : Table) {c : String}
    (h : ∀ w ∈ ws, rollName w ≠ c) : getCol (rollFold ws t) c = getCol t c := by
  induction ws generalizing t with
  | nil => rfl
  | cons a as ih =>
    have step : getCol (rollFold as (setCol t (rollName a)
        (rollingMean a (shift 1 (getCol t targetCol))))) c = getCol t c := by
      rw [ih _ (fun w hw => h w (List.mem_cons_of_mem a hw)),
        getCol_setCol_ne (Ne.symm (h a (List.mem_cons_self a as)))]
    exact step

theorem rollFold_getCol_target (ws : List ℕ) (t : Table) :
    getCol (rollFold ws t) targetCol = getCol t targetCol :=
  rollFold_getCol_other ws t (fun w _ => rollName_ne_target w)

theorem rollFold_length (ws : List ℕ) (t : Table) : (rollFold ws t).length = t.length := by
  induction ws generalizing t with
  | nil => rfl
  | cons a as ih =>
    exact (ih _).trans (setCol_length _ _ _)

theorem tsIndex_rollFold (ws : List ℕ) (t : Table) : tsIndex (rollFold ws t) = tsIndex t := by
  induction ws generalizing t with
  | nil => rfl
  | cons a as ih =>
    exact (ih _).trans (tsIndex_setCol _ _ _)

theorem rollFold_getCol_roll (ws : List ℕ) (t : Table) {w : ℕ} (hw : w ∈ ws)
    (hnd : (ws.map rollName).Nodup) :
    getCol (rollFold ws t) (rollName w) = rollingMean w (shift 1 (getCol t targetCol)) := by
  induction ws generalizing t with
  | nil => cases hw
  | cons a as ih =>
    rcases List.mem_cons.mp hw with rfl | hw'
    · have hno : ∀ w' ∈ as, rollName w' ≠ rollName w := by
        intro w' hw' hc
        have hnm : rollName w ∉ as.map rollName := (List.nodup_cons.mp hnd).1
        exact hnm (hc ▸ List.mem_map_of_mem rollName hw')
      have step : getCol (rollFold as (setCol t (rollName w)
          (rollingMean w (shift 1 (getCol t targetCol))))) (rollName w)
          = rollingMean w (shift 1 (getCol t targetCol)) := by
        rw [rollFold_getCol_other as _ hno,
          getCol_setCol_self (by rw [rollingMean_length, shift_length, getCol_length])]
      exact step
    · have step : getCol (rollFold as (setCol t (rollName a)
          (rollingMean a (shift 1 (getCol t targetCol))))) (rollName w)
          = rollingMean w (shift 1 (getCol t targetCol)) := by
        rw [ih _ hw' (List.nodup_cons.mp hnd).2,
          getCol_setCol_ne (Ne.symm (rollName_ne_target a))]
      exact step

theorem create_lag_getCol_other {t : Table} {lags wins : List ℕ} {c : String}
    (h1 : ∀ k ∈ lags, lagName k ≠ c) (h2 : ∀ w ∈ wins, rollName w ≠ c) :
    getCol (create_lag_features t lags wins) c = getCol t c := by
  rw [create_lag_features, rollFold_getCol_other _ _ h2, lagFold_getCol_other _ _ h1]

theorem create_lag_getCol_target (t : Table) (lags wins : List ℕ) :
    getCol (create_lag_features t lags wins) targetCol = getCol t targetCol :=
  create_lag_getCol_other (fun k _ => lagName_ne_target k) (fun w _ => rollName_ne_target w)

theorem create_lag_getCol_lag {t : Table} {lags wins : List ℕ} {k : ℕ}
    (hk : k ∈ lags) (hnd : (lags.map lagName).Nodup) :
    getCol (create_lag_features t lags wins) (lagName k)
      = shift k (getCol t targetCol) := by
  rw [create_lag_features,
    rollFold_getCol_other _ _ (fun w _ => rollName_ne_lagName w k),
    lagFold_getCol_lag _ _ hk hnd]

theorem create_lag_getCol_roll {t : Table} {lags wins : List ℕ} {w : ℕ}
    (hw : w ∈ wins) (hnd : (wins.map rollName).Nodup) :
    getCol (create_lag_features t lags wins) (rollName w)
      = rollingMean w (shift 1 (getCol t targetCol)) := by
  rw [create_lag_features, rollFold_getCol_roll _ _ hw hnd, lagFold_getCol_target]

theorem create_lag_length (t : Table) (lags wins : List ℕ) :
    (create_lag_features t lags wins).length = t.length := by
  rw [create_lag_features, rollFold_length, lagFold_length]

theorem tsIndex_create_lag (t : Table) (lags wins : List ℕ) :
    tsIndex (create_lag_features t lags wins) = tsIndex t := by
  rw [create_lag_features, tsIndex_rollFold, tsIndex_lagFold]

/-! ### `concatTables`, `sortIndex`, the filter step and the split point -/

theorem lookupCol_append_none (l1 l2 : List (String × Cell))
    (h : ∀ p ∈ l2, p.2 = none) (c : String) :
    lookupCol (l1 ++ l2) c = lookupCol l1 c := by
  induction l1 with
  | nil =>
    simp only [List.nil_append]
    induction l2 with
    | nil => rfl
    | cons p rest ih2 =>
      cases p with
      | mk c' v =>
        by_cases hc : c = c'
        · have hv : v = none := h (c', v) (List.mem_cons_self _ _)
          simp [lookupCol, hc, hv]
        · simp only [lookupCol, if_neg hc]
          exact ih2 (fun q hq => h q (List.mem_cons_of_mem _ hq))
  | cons p rest ih =>
    cases p with
    | mk c' v =>
      by_cases hc : c = c'
      · simp [lookupCol, hc]
      · simp [lookupCol, hc, ih]

theorem lookupCol_padCols (cols : List String) (cs : List (String × Cell)) (c : String) :
    lookupCol (padCols cols cs) c = lookupCol cs c := by
  apply lookupCol_append_none
  intro p hp
  simp only [List.mem_map] at hp
  obtain ⟨c', _, rfl⟩ := hp
  rfl

theorem getCol_concatTables (a b : Table) (c : String) :
    getCol (concatTables a b) c = getCol a c ++ getCol b c := by
  have hmap : ∀ u : Table,
      (u.map (fun r => (r.1, padCols (colsOf (a ++ b)) r.2))).map
        (fun r => lookupCol r.2 c) = u.map (fun r => lookupCol r.2 c) := by
    intro u
    rw [List.map_map]
    apply List.map_congr_left
    intro r _
    simp [Function.comp, lookupCol_padCols]
  simp only [concatTables, getCol, List.map_append]
  rw [hmap, hmap]

theorem tsIndex_concatTables (a b : Table) :
    tsIndex (concatTables a b) = tsIndex a ++ tsIndex b := by
  have hmap : ∀ u : Table,
      (u.map (fun r => (r.1, padCols (colsOf (a ++ b)) r.2))).map Prod.fst
        = u.map Prod.fst := by
    intro u
    rw [List.map_map]
    apply List.map_congr_left
    intro r _
    rfl
  simp only [concatTables, tsIndex, List.map_append]
  rw [hmap, hmap]

theorem concatTables_length (a b : Table) :
    (concatTables a b).length = a.length + b.length := by
  simp [concatTables]

theorem sortIndex_sorted_le (t : Table) :
    (tsIndex (sortIndex t)).Pairwise (· ≤ ·) := by
  have h := List.sorted_insertionSort rowLe t
  rw [tsIndex, List.pairwise_map]
  exact h

theorem sortIndex_eq_self {t : Table} (h : (tsIndex t).Pairwise (· < ·)) :
    sortIndex t = t := by
  apply List.Sorted.insertionSort_eq
  rw [tsIndex, List.pairwise_map] at h
  exact h.imp (fun hab => le_of_lt hab)

theorem sortIndex_length (t : Table) : (sortIndex t).length = t.length :=
  List.length_insertionSort rowLe t

theorem drop_take_append_drop {α : Type} (l : List α) (a b : ℕ) (hab : a ≤ b) :
    (l.take b).drop a ++ l.drop b = l.drop a := by
  rw [List.drop_take]
  have hb : l.drop b = (l.drop a).drop (b - a) := by
    rw [List.drop_drop]
    congr 1
    omega
  rw [hb, List.take_append_drop]

theorem filter_eq_drop_of {α : Type} (l : List α) (p : α → Bool) (m : ℕ)
    (h1 : ∀ a ∈ l.take m, p a = false) (h2 : ∀ a ∈ l.drop m, p a = true) :
    l.filter p = l.drop m := by
  conv_lhs => rw [← List.take_append_drop m l]
  rw [List.filter_append,
    List.filter_eq_nil_iff.mpr (fun a ha => by simp [h1 a ha]),
    List.filter_eq_self.mpr h2, List.nil_append]

theorem split_index_le (t : Table) : split_index t ≤ t.length := by
  rw [split_index]
  omega

theorem split_index_sortIndex (t : Table) :
    split_index (sortIndex t) = split_index t := by
  rw [split_index, split_index, sortIndex_length]

theorem split_index_eq_floor (t : Table) :
    split_index t = Nat.floor ((t.length : ℚ) * (9 / 10)) := by
  have h : ((t.length : ℚ) * (9 / 10)) = ((t.length * 9 : ℕ) : ℚ) / ((10 : ℕ) : ℚ) := by
    push_cast
    ring
  rw [split_index, h, Nat.floor_div_nat, Nat.floor_natCast]

/-! ### Characterization of the pipeline -/

/-- Number of spillover rows actually concatenated: `tail(12)` takes the whole
training segment when it is shorter than 12. -/
def spillLen (t : Table) : ℕ := min 12 (split_index t)

theorem train_df_raw_eq {t : Table} (hs : (tsIndex t).Pairwise (· < ·)) :
    train_df_raw t = t.take (split_index t) := by
  rw [train_df_raw, sortIndex_eq_self hs]

theorem forecast_df_raw_eq {t : Table} (hs : (tsIndex t).Pairwise (· < ·)) :
    forecast_df_raw t = t.drop (split_index t) := by
  rw [forecast_df_raw, sortIndex_eq_self hs]

theorem tsIndex_train_df {t : Table} (hs : (tsIndex t).Pairwise (· < ·)) :
    tsIndex (train_df t) = (tsIndex t).take (split_index t) := by
  rw [train_df, tsIndex_create_lag, train_df_raw_eq hs, tsIndex_take]

theorem train_df_length {t : Table} (hs : (tsIndex t).Pairwise (· < ·)) :
    (train_df t).length = split_index t := by
  rw [train_df, create_lag_length, train_df_raw_eq hs, List.length_take]
  exact min_eq_left (split_index_le t)

theorem getCol_train_df_target {t : Table} (hs : (tsIndex t).Pairwise (· < ·)) :
    getCol (train_df t) targetCol = (getCol t targetCol).take (split_index t) := by
  rw [train_df, create_lag_getCol_target, train_df_raw_eq hs, getCol_take]

theorem getCol_combined_target {t : Table} (hs : (tsIndex t).Pairwise (· < ·)) :
    getCol (concatTables (tailN 12 (train_df t)) (forecast_df_raw t)) targetCol
      = (getCol t targetCol).drop (split_index t - 12) := by
  rw [getCol_concatTables, tailN, getCol_drop, getCol_train_df_target hs,
    train_df_length hs, forecast_df_raw_eq hs, getCol_drop]
  exact drop_take_append_drop _ _ _ (by omega)

theorem tsIndex_combined {t : Table} (hs : (tsIndex t).Pairwise (· < ·)) :
    tsIndex (concatTables (tailN 12 (train_df t)) (forecast_df_raw t))
      = ((tsIndex t).take (split_index t)).drop (split_index t - 12)
          ++ (tsIndex t).drop (split_index t) := by
  rw [tsIndex_concatTables, tailN, tsIndex_drop, tsIndex_train_df hs,
    train_df_length hs, forecast_df_raw_eq hs, tsIndex_drop]

theorem tsIndex_forecast_df_pre {t : Table} (hs : (tsIndex t).Pairwise (· < ·)) :
    tsIndex (forecast_df_pre t)
      = ((tsIndex t).take (split_index t)).drop (split_index t - 12)
          ++ (tsIndex t).drop (split_index t) := by
  rw [forecast_df_pre, tsIndex_create_lag, tsIndex_combined hs]

theorem spill_ts_length {t : Table} (_hs : (tsIndex t).Pairwise (· < ·)) :
    (((tsIndex t).take (split_index t)).drop (split_index t - 12)).length = spillLen t := by
  have h1 : (tsIndex t).length = t.length := tsIndex_length t
  have h2 : split_index t ≤ t.length := split_index_le t
  simp [List.length_drop, List.length_take, spillLen]
  omega

theorem not_mem_take_of_mem_drop {l : List ℕ} (h : l.Pairwise (· < ·)) {b n : ℕ}
    (hb : b ∈ l.drop n) : b ∉ l.take n := by
  intro hbt
  have hp : (l.take n ++ l.drop n).Pairwise (fun a b : ℕ => a < b) := by
    rwa [List.take_append_drop]
  exact lt_irrefl b ((List.pairwise_append.mp hp).2.2 b hbt b hb)

theorem forecast_df_eq_drop {t : Table} (hs : (tsIndex t).Pairwise (· < ·)) :
    forecast_df t = (forecast_df_pre t).drop (spillLen t) := by
  rw [forecast_df]
  apply filter_eq_drop_of
  · intro r hr
    have hr1 : r.1 ∈ (tsIndex (forecast_df_pre t)).take (spillLen t) := by
      rw [← tsIndex_take]
      exact List.mem_map_of_mem Prod.fst hr
    rw [tsIndex_forecast_df_pre hs, ← spill_ts_length hs, List.take_left] at hr1
    have hmem : r.1 ∈ tsIndex (train_df t) := by
      rw [tsIndex_train_df hs]
      exact List.mem_of_mem_drop hr1
    simp [List.elem_eq_mem, hmem]
  · intro r hr
    have hr1 : r.1 ∈ (tsIndex (forecast_df_pre t)).drop (spillLen t) := by
      rw [← tsIndex_drop]
      exact List.mem_map_of_mem Prod.fst hr
    rw [tsIndex_forecast_df_pre hs, ← spill_ts_length hs, List.drop_left] at hr1
    have hnmem : r.1 ∉ tsIndex (train_df t) := by
      rw [tsIndex_train_df hs]
      exact not_mem_take_of_mem_drop hs hr1
    simp [List.elem_eq_mem, hnmem]

theorem tsIndex_forecast_df {t : Table} (hs : (tsIndex t).Pairwise (· < ·)) :
    tsIndex (forecast_df t) = (tsIndex t).drop (split_index t) := by
  rw [forecast_df_eq_drop hs, tsIndex_drop, tsIndex_forecast_df_pre hs,
    ← spill_ts_length hs, List.drop_left]

theorem getCol_forecast_df {t : Table} (hs : (tsIndex t).Pairwise (· < ·)) (c : String) :
    getCol (forecast_df t) c = (getCol (forecast_df_pre t) c).drop (spillLen t) := by
  rw [forecast_df_eq_drop hs, getCol_drop]

theorem forecast_df_length {t : Table} (hs : (tsIndex t).Pairwise (· < ·)) :
    (forecast_df t).length = t.length - split_index t := by
  have h := congrArg List.length (tsIndex_forecast_df hs)
  rw [tsIndex_length, List.length_drop, tsIndex_length] at h
  exact h

/-! ### Values of the generated feature columns -/

theorem shift_map_some_getElem? {k i : ℕ} {ys : List ℚ} (h1 : k ≤ i) (h2 : i < ys.length) :
    (shift k (ys.map some))[i]? = some (ys[i - k]?) := by
  have hik : i - k < ys.length := by omega
  rw [shift_getElem?_ge h1 (by simpa using h2), List.getElem?_map,
    List.getElem?_eq_getElem hik]
  rfl

theorem shift_one_map_some (ys : List ℚ) (h : 0 < ys.length) :
    shift 1 (ys.map some) = none :: (ys.take (ys.length - 1)).map some := by
  rw [shift]
  have hmin : min 1 (ys.map some).length = 1 := by
    simp only [List.length_map]
    omega
  rw [hmin, List.length_map, ← List.map_take]
  rfl

theorem rollingMean_shift1_map_some {w i : ℕ} {ys : List ℚ}
    (hw : 0 < w) (h1 : w ≤ i) (h2 : i < ys.length) :
    (rollingMean w (shift 1 (ys.map some)))[i]?
      = some (some (((ys.drop (i - w)).take w).sum / (w : ℚ))) := by
  have hlen : (shift 1 (ys.map some)).length = ys.length := by
    rw [shift_length, List.length_map]
  rw [rollingMean_getElem? (by omega), if_pos (by omega)]
  have hwin : ((shift 1 (ys.map some)).drop (i + 1 - w)).take w
      = ((ys.drop (i - w)).take w).map some := by
    rw [shift_one_map_some ys (by omega)]
    have hiw : i + 1 - w = (i - w) + 1 := by omega
    rw [hiw, List.drop_succ_cons, ← List.map_drop, ← List.map_take]
    congr 1
    rw [List.drop_take]
    have hq : w ≤ ys.length - 1 - (i - w) := by omega
    rw [List.take_take, min_eq_left hq]
  rw [hwin]
  have hall : (((ys.drop (i - w)).take w).map some).all Option.isSome = true := by
    rw [List.all_eq_true]
    intro o ho
    simp only [List.mem_map] at ho
    obtain ⟨v, _, rfl⟩ := ho
    rfl
  rw [if_pos hall, List.map_map]
  have hcomp : ((fun o : Cell => o.getD 0) ∘ some) = fun v : ℚ => v := by
    funext v
    rfl
  rw [hcomp, List.map_id']

theorem getCol_forecast_df_pre_lag {t : Table} (hs : (tsIndex t).Pairwise (· < ·))
    {k : ℕ} (hk : k ∈ forecastLags) :
    getCol (forecast_df_pre t) (lagName k)
      = shift k ((getCol t targetCol).drop (split_index t - 12)) := by
  rw [forecast_df_pre, create_lag_getCol_lag hk (by decide), getCol_combined_target hs]

theorem getCol_forecast_df_pre_roll {t : Table} (hs : (tsIndex t).Pairwise (· < ·))
    {w : ℕ} (hw : w ∈ forecastWins) :
    getCol (forecast_df_pre t) (rollName w)
      = rollingMean w (shift 1 ((getCol t targetCol).drop (split_index t - 12))) := by
  rw [forecast_df_pre, create_lag_getCol_roll hw (by decide), getCol_combined_target hs]

theorem target_length {t : Table} {xs : List ℚ} (hx : getCol t targetCol = xs.map some) :
    xs.length = t.length := by
  have h := congrArg List.length hx
  rw [getCol_length, List.length_map] at h
  omega

theorem forecast_lag_defined {t : Table} {xs : List ℚ}
    (hs : (tsIndex t).Pairwise (· < ·)) (hx : getCol t targetCol = xs.map some)
    {k j : ℕ} (hk : k ∈ forecastLags) (hj : j < t.length - split_index t)
    (hkm : k ≤ spillLen t + j) :
    (getCol (forecast_df t) (lagName k))[j]? = some (xs[split_index t + j - k]?) := by
  have hlen : xs.length = t.length := target_length hx
  have hsle : split_index t ≤ t.length := split_index_le t
  have hm : spillLen t + (split_index t - 12) = split_index t := by
    rw [spillLen]
    omega
  rw [getCol_forecast_df hs, List.getElem?_drop, getCol_forecast_df_pre_lag hs hk, hx,
    ← List.map_drop]
  have hidx : spillLen t + j < (xs.drop (split_index t - 12)).length := by
    rw [List.length_drop]
    omega
  rw [shift_map_some_getElem? hkm (by simpa using hidx), List.getElem?_drop]
  congr 2
  omega

theorem forecast_lag_missing {t : Table}
    (hs : (tsIndex t).Pairwise (· < ·))
    {k j : ℕ} (hk : k ∈ forecastLags) (hj : j < t.length - split_index t)
    (hkm : spillLen t + j < k) :
    (getCol (forecast_df t) (lagName k))[j]? = some none := by
  have hsle : split_index t ≤ t.length := split_index_le t
  rw [getCol_forecast_df hs, List.getElem?_drop, getCol_forecast_df_pre_lag hs hk]
  apply shift_getElem?_lt hkm
  rw [List.length_drop, getCol_length]
  have hm : spillLen t + (split_index t - 12) = split_index t := by
    rw [spillLen]
    omega
  omega

theorem forecast_roll_defined {t : Table} {xs : List ℚ}
    (hs : (tsIndex t).Pairwise (· < ·)) (hx : getCol t targetCol = xs.map some)
    {w j : ℕ} (hw : w ∈ forecastWins) (hj : j < t.length - split_index t)
    (hwm : w ≤ spillLen t + j) :
    (getCol (forecast_df t) (rollName w))[j]?
      = some (some (((xs.drop (split_index t + j - w)).take w).sum / (w : ℚ))) := by
  have hlen : xs.length = t.length := target_length hx
  have hsle : split_index t ≤ t.length := split_index_le t
  have hm : spillLen t + (split_index t - 12) = split_index t := by
    rw [spillLen]
    omega
  have hw0 : 0 < w := by
    have : w = 3 ∨ w = 6 ∨ w = 12 := by simpa [forecastWins] using hw
    omega
  rw [getCol_forecast_df hs, List.getElem?_drop, getCol_forecast_df_pre_roll hs hw, hx,
    ← List.map_drop]
  have hidx : spillLen t + j < (xs.drop (split_index t - 12)).length := by
    rw [List.length_drop]
    omega
  rw [rollingMean_shift1_map_some hw0 hwm hidx, List.drop_drop]
  have hgoal : split_index t - 12 + (spillLen t + j - w) = split_index t + j - w := by
    omega
  rw [hgoal]

theorem forecast_roll_missing {t : Table}
    (hs : (tsIndex t).Pairwise (· < ·))
    {w j : ℕ} (hw : w ∈ forecastWins) (hj : j < t.length - split_index t)
    (hwm : spillLen t + j < w) :
    (getCol (forecast_df t) (rollName w))[j]? = some none := by
  have hsle : split_index t ≤ t.length := split_index_le t
  have hm : spillLen t + (split_index t - 12) = split_index t := by
    rw [spillLen]
    omega
  rw [getCol_forecast_df hs, List.getElem?_drop, getCol_forecast_df_pre_roll hs hw]
  apply rollingMean_shift1_getElem?_lt hwm
  rw [List.length_drop, getCol_length]
  omega

theorem getCol_eq_replicate_none {t : Table} {c : String}
    (h : ∀ r ∈ t, lookupCol r.2 c = none) :
    getCol t c = List.replicate t.length none := by
  apply List.eq_replicate_iff.mpr
  refine ⟨getCol_length t c, ?_⟩
  intro b hb
  simp only [getCol, List.mem_map] at hb
  obtain ⟨r, hr, rfl⟩ := hb
  exact h r hr

/-- The feature columns of the training invocation that the forecast
invocation does not recompute. -/
def staleCols : List String := ["lag_6", "lag_12", "lag_24", "lag_48", "roll_mean_24"]

theorem forecast_stale_missing {t : Table}
    (hs : (tsIndex t).Pairwise (· < ·)) {c : String} (hc : c ∈ staleCols)
    (hraw : ∀ r ∈ t, lookupCol r.2 c = none) {j : ℕ}
    (hj : j < t.length - split_index t) :
    (getCol (forecast_df t) c)[j]? = some none := by
  have hsle : split_index t ≤ t.length := split_index_le t
  have h1 : ∀ k ∈ forecastLags, lagName k ≠ c := by
    fin_cases hc <;> decide
  have h2 : ∀ w ∈ forecastWins, rollName w ≠ c := by
    fin_cases hc <;> decide
  rw [getCol_forecast_df hs, List.getElem?_drop, forecast_df_pre,
    create_lag_getCol_other h1 h2, getCol_concatTables]
  have hlen1 : (getCol (tailN 12 (train_df t)) c).length = spillLen t := by
    rw [getCol_length, tailN, List.length_drop, train_df_length hs, spillLen]
    omega
  rw [List.getElem?_append_right (by omega), hlen1]
  have hrepl : getCol (forecast_df_raw t) c
      = List.replicate (forecast_df_raw t).length none := by
    apply getCol_eq_replicate_none
    intro r hr
    rw [forecast_df_raw_eq hs] at hr
    exact hraw r (List.mem_of_mem_drop hr)
  rw [hrepl, List.getElem?_replicate, if_pos]
  rw [forecast_df_raw_eq hs, List.length_drop]
  omega

/-! ### Characterization of `enrich_features` -/

/-- The nine column names that `enrich_features` writes. -/
def enrichNames : List String :=
  ["appliance_sum", "furnace_on", "net_energy_lag_1", "hour_block", "is_weekend",
    "is_night", "dayofyear", "dayofyear_sin", "dayofyear_cos"]

/-- The enrichment columns whose value depends only on the row itself
(every one of them except `net_energy_lag_1`). -/
def rowwiseNames : List String :=
  ["appliance_sum", "furnace_on", "hour_block", "is_weekend",
    "is_night", "dayofyear", "dayofyear_sin", "dayofyear_cos"]

theorem lookupCol_enrichRow_other (doy : ℕ → ℚ) (sinF cosF : ℚ → ℚ) (ps : Cell)
    (r : Row) {c : String} (h : c ∉ enrichNames) :
    lookupCol (enrichRow doy sinF cosF ps r).2 c = lookupCol r.2 c := by
  have h1 : c ≠ "appliance_sum" := fun hc => h (by rw [hc]; decide)
  have h2 : c ≠ "furnace_on" := fun hc => h (by rw [hc]; decide)
  have h3 : c ≠ "net_energy_lag_1" := fun hc => h (by rw [hc]; decide)
  have h4 : c ≠ "hour_block" := fun hc => h (by rw [hc]; decide)
  have h5 : c ≠ "is_weekend" := fun hc => h (by rw [hc]; decide)
  have h6 : c ≠ "is_night" := fun hc => h (by rw [hc]; decide)
  have h7 : c ≠ "dayofyear" := fun hc => h (by rw [hc]; decide)
  have h8 : c ≠ "dayofyear_sin" := fun hc => h (by rw [hc]; decide)
  have h9 : c ≠ "dayofyear_cos" := fun hc => h (by rw [hc]; decide)
  simp only [enrichRow]
  rw [lookupCol_insertCol_ne _ _ h9, lookupCol_insertCol_ne _ _ h8,
    lookupCol_insertCol_ne _ _ h7, lookupCol_insertCol_ne _ _ h6,
    lookupCol_insertCol_ne _ _ h5, lookupCol_insertCol_ne _ _ h4,
    lookupCol_insertCol_ne _ _ h3, lookupCol_insertCol_ne _ _ h2,
    lookupCol_insertCol_ne _ _ h1]

theorem lookupCol_enrichRow_appliance (doy : ℕ → ℚ) (sinF cosF : ℚ → ℚ) (ps : Cell) (r : Row) :
    lookupCol (enrichRow doy sinF cosF ps r).2 "appliance_sum"
      = some ((applianceCols.map (fun c => cellVal (lookupCol r.2 c))).sum) := by
  simp only [enrichRow]
  rw [lookupCol_insertCol_ne _ _ (by decide), lookupCol_insertCol_ne _ _ (by decide),
    lookupCol_insertCol_ne _ _ (by decide), lookupCol_insertCol_ne _ _ (by decide),
    lookupCol_insertCol_ne _ _ (by decide), lookupCol_insertCol_ne _ _ (by decide),
    lookupCol_insertCol_ne _ _ (by decide), lookupCol_insertCol_ne _ _ (by decide),
    lookupCol_insertCol_self]

theorem lookupCol_enrichRow_furnace (doy : ℕ → ℚ) (sinF cosF : ℚ → ℚ) (ps : Cell) (r : Row) :
    lookupCol (enrichRow doy sinF cosF ps r).2 "furnace_on"
      = some (if 0 < cellVal (lookupCol r.2 "furnace") then 1 else 0) := by
  simp only [enrichRow]
  rw [lookupCol_insertCol_ne _ _ (by decide), lookupCol_insertCol_ne _ _ (by decide),
    lookupCol_insertCol_ne _ _ (by decide), lookupCol_insertCol_ne _ _ (by decide),
    lookupCol_insertCol_ne _ _ (by decide), lookupCol_insertCol_ne _ _ (by decide),
    lookupCol_insertCol_ne _ _ (by decide), lookupCol_insertCol_self]

theorem lookupCol_enrichRow_net (doy : ℕ → ℚ) (sinF cosF : ℚ → ℚ) (ps : Cell) (r : Row) :
    lookupCol (enrichRow doy sinF cosF ps r).2 "net_energy_lag_1"
      = (lookupCol r.2 "lag_1").bind (fun a => ps.map (fun b => a - b)) := by
  simp only [enrichRow]
  rw [lookupCol_insertCol_ne _ _ (by decide), lookupCol_insertCol_ne _ _ (by decide),
    lookupCol_insertCol_ne _ _ (by decide), lookupCol_insertCol_ne _ _ (by decide),
    lookupCol_insertCol_ne _ _ (by decide), lookupCol_insertCol_ne _ _ (by decide),
    lookupCol_insertCol_self]

theorem lookupCol_enrichRow_hour_block (doy : ℕ → ℚ) (sinF cosF : ℚ → ℚ) (ps : Cell) (r : Row) :
    lookupCol (enrichRow doy sinF cosF ps r).2 "hour_block"
      = (lookupCol r.2 "hour").map (fun h => ((Int.floor (h / 4) : ℤ) : ℚ)) := by
  simp only [enrichRow]
  rw [lookupCol_insertCol_ne _ _ (by decide), lookupCol_insertCol_ne _ _ (by decide),
    lookupCol_insertCol_ne _ _ (by decide), lookupCol_insertCol_ne _ _ (by decide),
    lookupCol_insertCol_ne _ _ (by decide), lookupCol_insertCol_self]

theorem lookupCol_enrichRow_weekend (doy : ℕ → ℚ) (sinF cosF : ℚ → ℚ) (ps : Cell) (r : Row) :
    lookupCol (enrichRow doy sinF cosF ps r).2 "is_weekend"
      = some (min (cellVal (lookupCol r.2 "wd_Saturday")
          + cellVal (lookupCol r.2 "wd_Sunday")) 1) := by
  simp only [enrichRow]
  rw [lookupCol_insertCol_ne _ _ (by decide), lookupCol_insertCol_ne _ _ (by decide),
    lookupCol_insertCol_ne _ _ (by decide), lookupCol_insertCol_ne _ _ (by decide),
    lookupCol_insertCol_self]

theorem lookupCol_enrichRow_night (doy : ℕ → ℚ) (sinF cosF : ℚ → ℚ) (ps : Cell) (r : Row) :
    lookupCol (enrichRow doy sinF cosF ps r).2 "is_night"
      = some (if (lookupCol r.2 "hour").any (fun h => nightHours.contains h)
          then 1 else 0) := by
  simp only [enrichRow]
  rw [lookupCol_insertCol_ne _ _ (by decide), lookupCol_insertCol_ne _ _ (by decide),
    lookupCol_insertCol_ne _ _ (by decide), lookupCol_insertCol_self]

theorem lookupCol_enrichRow_doy (doy : ℕ → ℚ) (sinF cosF : ℚ → ℚ) (ps : Cell) (r : Row) :
    lookupCol (enrichRow doy sinF cosF ps r).2 "dayofyear" = some (doy r.1) := by
  simp only [enrichRow]
  rw [lookupCol_insertCol_ne _ _ (by decide), lookupCol_insertCol_ne _ _ (by decide),
    lookupCol_insertCol_self]

theorem lookupCol_enrichRow_doySin (doy : ℕ → ℚ) (sinF cosF : ℚ → ℚ) (ps : Cell) (r : Row) :
    lookupCol (enrichRow doy sinF cosF ps r).2 "dayofyear_sin" = some (sinF (doy r.1)) := by
  simp only [enrichRow]
  rw [lookupCol_insertCol_ne _ _ (by decide), lookupCol_insertCol_self]

theorem lookupCol_enrichRow_doyCos (doy : ℕ → ℚ) (sinF cosF : ℚ → ℚ) (ps : Cell) (r : Row) :
    lookupCol (enrichRow doy sinF cosF ps r).2 "dayofyear_cos" = some (cosF (doy r.1)) := by
  simp only [enrichRow]
  rw [lookupCol_insertCol_self]

theorem enrichRow_fst (doy : ℕ → ℚ) (sinF cosF : ℚ → ℚ) (ps : Cell) (r : Row) :
    (enrichRow doy sinF cosF ps r).1 = r.1 := rfl

theorem mem_colNames_enrichRow (doy : ℕ → ℚ) (sinF cosF : ℚ → ℚ) (ps : Cell) (r : Row)
    {c : String} (hc : c ∈ enrichNames) :
    c ∈ colNames (enrichRow doy sinF cosF ps r).2 := by
  simp only [enrichRow]
  fin_cases hc <;>
    (repeat
      first
        | exact mem_colNames_insertCol_self _ _ _
        | refine mem_colNames_insertCol_of_mem _ _ _ ?_)

theorem enrichRow_fixpoint (doy : ℕ → ℚ) (sinF cosF : ℚ → ℚ) (ps : Cell) (b : Row)
    (h1 : lookupCol b.2 "appliance_sum"
      = some ((applianceCols.map (fun c => cellVal (lookupCol b.2 c))).sum))
    (h2 : lookupCol b.2 "furnace_on"
      = some (if 0 < cellVal (lookupCol b.2 "furnace") then 1 else 0))
    (h3 : lookupCol b.2 "net_energy_lag_1"
      = (lookupCol b.2 "lag_1").bind (fun a => ps.map (fun x => a - x)))
    (h4 : lookupCol b.2 "hour_block"
      = (lookupCol b.2 "hour").map (fun h => ((Int.floor (h / 4) : ℤ) : ℚ)))
    (h5 : lookupCol b.2 "is_weekend"
      = some (min (cellVal (lookupCol b.2 "wd_Saturday")
          + cellVal (lookupCol b.2 "wd_Sunday")) 1))
    (h6 : lookupCol b.2 "is_night"
      = some (if (lookupCol b.2 "hour").any (fun h => nightHours.contains h)
          then 1 else 0))
    (h7 : lookupCol b.2 "dayofyear" = some (doy b.1))
    (h8 : lookupCol b.2 "dayofyear_sin" = some (sinF (doy b.1)))
    (h9 : lookupCol b.2 "dayofyear_cos" = some (cosF (doy b.1)))
    (hm : ∀ c ∈ enrichNames, c ∈ colNames b.2) :
    enrichRow doy sinF cosF ps b = b := by
  simp only [enrichRow]
  rw [insertCol_lookup_eq_self (hm _ (by decide)) h1,
    insertCol_lookup_eq_self (hm _ (by decide)) h2,
    insertCol_lookup_eq_self (hm _ (by decide)) h3,
    insertCol_lookup_eq_self (hm _ (by decide)) h4,
    insertCol_lookup_eq_self (hm _ (by decide)) h5,
    insertCol_lookup_eq_self (hm _ (by decide)) h6,
    insertCol_lookup_eq_self (hm _ (by decide)) h7,
    insertCol_lookup_eq_self (hm _ (by decide)) h8,
    insertCol_lookup_eq_self (hm _ (by decide)) h9]

theorem enrichRow_idem (doy : ℕ → ℚ) (sinF cosF : ℚ → ℚ) (ps : Cell) (r : Row) :
    enrichRow doy sinF cosF ps (enrichRow doy sinF cosF ps r)
      = enrichRow doy sinF cosF ps r := by
  apply enrichRow_fixpoint
  · rw [lookupCol_enrichRow_appliance]
    congr 1
    congr 1
    apply List.map_congr_left
    intro c hc
    have hcn : c ∉ enrichNames := by
      fin_cases hc <;> decide
    rw [lookupCol_enrichRow_other _ _ _ _ _ hcn]
  · rw [lookupCol_enrichRow_furnace,
      lookupCol_enrichRow_other _ _ _ _ _ (by decide)]
  · rw [lookupCol_enrichRow_net,
      lookupCol_enrichRow_other _ _ _ _ _ (by decide)]
  · rw [lookupCol_enrichRow_hour_block,
      lookupCol_enrichRow_other _ _ _ _ _ (by decide)]
  · rw [lookupCol_enrichRow_weekend,
      lookupCol_enrichRow_other _ _ _ _ _ (by decide),
      lookupCol_enrichRow_other _ _ _ _ _ (by decide)]
  · rw [lookupCol_enrichRow_night,
      lookupCol_enrichRow_other _ _ _ _ _ (by decide)]
  · rw [lookupCol_enrichRow_doy, enrichRow_fst]
  · rw [lookupCol_enrichRow_doySin, enrichRow_fst]
  · rw [lookupCol_enrichRow_doyCos, enrichRow_fst]
  · intro c hc
    exact mem_colNames_enrichRow _ _ _ _ _ hc

theorem zipWith_eq_map_of {α β γ : Type} (f : α → β → γ) (g : α → γ)
    (l1 : List α) (l2 : List β) (hlen : l1.length ≤ l2.length)
    (h : ∀ a b, f a b = g a) : List.zipWith f l1 l2 = l1.map g := by
  induction l1 generalizing l2 with
  | nil => simp
  | cons a as ih =>
    cases l2 with
    | nil => simp at hlen
    | cons b bs =>
      simp only [List.zipWith_cons_cons, List.map_cons, h a b]
      rw [ih bs (by simpa using hlen)]

theorem zipWith_congr_fun {α β γ : Type} (f g : α → β → γ) (l1 : List α) (l2 : List β)
    (h : ∀ a b, f a b = g a b) : List.zipWith f l1 l2 = List.zipWith g l1 l2 := by
  induction l1 generalizing l2 with
  | nil => simp
  | cons a as ih =>
    cases l2 with
    | nil => simp
    | cons b bs =>
      simp only [List.zipWith_cons_cons, h a b]
      rw [ih bs]

theorem zipWith_zipWith_same {α β : Type} (f : α → β → α) (l1 : List α) (l2 : List β)
    (h : ∀ a b, f (f a b) b = f a b) :
    List.zipWith f (List.zipWith f l1 l2) l2 = List.zipWith f l1 l2 := by
  induction l1 generalizing l2 with
  | nil => simp
  | cons a as ih =>
    cases l2 with
    | nil => simp
    | cons b bs =>
      simp only [List.zipWith_cons_cons, h a b]
      rw [ih bs]

theorem getCol_enrich (doy : ℕ → ℚ) (sinF cosF : ℚ → ℚ) (tbl : Table) (c : String) :
    getCol (enrich_features doy sinF cosF tbl) c
      = List.zipWith (fun r ps => lookupCol (enrichRow doy sinF cosF ps r).2 c)
          tbl (shift 1 (getCol tbl "generated_solar")) := by
  rw [enrich_features, getCol, List.map_zipWith]

theorem getCol_enrich_other (doy : ℕ → ℚ) (sinF cosF : ℚ → ℚ) (tbl : Table)
    {c : String} (h : c ∉ enrichNames) :
    getCol (enrich_features doy sinF cosF tbl) c = getCol tbl c := by
  rw [getCol_enrich,
    zipWith_eq_map_of _ (fun r => lookupCol r.2 c) _ _
      (by rw [shift_length, getCol_length])
      (fun a b => lookupCol_enrichRow_other doy sinF cosF b a h)]
  rfl

theorem tsIndex_enrich (doy : ℕ → ℚ) (sinF cosF : ℚ → ℚ) (tbl : Table) :
    tsIndex (enrich_features doy sinF cosF tbl) = tsIndex tbl := by
  rw [enrich_features, tsIndex, List.map_zipWith,
    zipWith_eq_map_of _ Prod.fst _ _ (by rw [shift_length, getCol_length])
      (fun a b => enrichRow_fst doy sinF cosF b a)]
  rfl

theorem enrich_length (doy : ℕ → ℚ) (sinF cosF : ℚ → ℚ) (tbl : Table) :
    (enrich_features doy sinF cosF tbl).length = tbl.length := by
  rw [enrich_features, List.length_zipWith, shift_length, getCol_length, min_self]

theorem enrich_features_idem (doy : ℕ → ℚ) (sinF cosF : ℚ → ℚ) (tbl : Table) :
    enrich_features doy sinF cosF (enrich_features doy sinF cosF tbl)
      = enrich_features doy sinF cosF tbl := by
  have hsolar : getCol (enrich_features doy sinF cosF tbl) "generated_solar"
      = getCol tbl "generated_solar" := getCol_enrich_other doy sinF cosF tbl (by decide)
  rw [show enrich_features doy sinF cosF (enrich_features doy sinF cosF tbl)
      = List.zipWith (fun r ps => enrichRow doy sinF cosF ps r)
          (enrich_features doy sinF cosF tbl)
          (shift 1 (getCol (enrich_features doy sinF cosF tbl) "generated_solar"))
      from rfl, hsolar,
    show enrich_features doy sinF cosF tbl
      = List.zipWith (fun r ps => enrichRow doy sinF cosF ps r) tbl
          (shift 1 (getCol tbl "generated_solar")) from rfl]
  exact zipWith_zipWith_same _ _ _ (fun a b => enrichRow_idem doy sinF cosF b a)

theorem getCol_enrich_rowwise (doy : ℕ → ℚ) (sinF cosF : ℚ → ℚ) (u : Table)
    {c : String} (hc : c ∈ rowwiseNames) :
    getCol (enrich_features doy sinF cosF u) c
      = u.map (fun r => lookupCol (enrichRow doy sinF cosF none r).2 c) := by
  rw [getCol_enrich]
  apply zipWith_eq_map_of _ _ _ _ (by rw [shift_length, getCol_length])
  intro a b
  fin_cases hc <;>
    simp only [lookupCol_enrichRow_appliance, lookupCol_enrichRow_furnace,
      lookupCol_enrichRow_hour_block, lookupCol_enrichRow_weekend,
      lookupCol_enrichRow_night, lookupCol_enrichRow_doy,
      lookupCol_enrichRow_doySin, lookupCol_enrichRow_doyCos]

theorem getCol_enrich_net (doy : ℕ → ℚ) (sinF cosF : ℚ → ℚ) (u : Table) :
    getCol (enrich_features doy sinF cosF u) "net_energy_lag_1"
      = List.zipWith (fun a b => a.bind (fun x => b.map (fun y => x - y)))
          (getCol u "lag_1") (shift 1 (getCol u "generated_solar")) := by
  rw [getCol_enrich]
  simp only [getCol]
  rw [List.zipWith_map_left]
  apply zipWith_congr_fun
  intro a b
  rw [lookupCol_enrichRow_net]

theorem shift_one_take (l : List Cell) (n : ℕ) :
    shift 1 (l.take n) = (shift 1 l).take n := by
  apply List.ext_getElem?
  intro i
  have hlt : (l.take n).length = min n l.length := List.length_take n l
  by_cases hi : i < min n l.length
  · rw [List.getElem?_take, if_pos (by omega)]
    by_cases h0 : i = 0
    · subst h0
      rw [shift_getElem?_lt (by omega) (by omega), shift_getElem?_lt (by omega) (by omega)]
    · rw [shift_getElem?_ge (by omega) (by omega), shift_getElem?_ge (by omega) (by omega),
        List.getElem?_take, if_pos (by omega)]
  · rw [List.getElem?_eq_none (by rw [shift_length]; omega),
      List.getElem?_eq_none (by rw [List.length_take, shift_length]; omega)]

/-! ### Sample tables used by witnesses and counterexamples -/

/-- A minimal observation row: target only; timestamp `i`, value `v`. -/
def minRow (v : ℚ) (i : ℕ) : Row := (i, [("use_house_overall", some v)])

/-- `n` hourly rows, target identically 0, timestamps `0, …, n-1`. -/
def sampleTableMin (n : ℕ) : Table := (List.range n).map (minRow 0)

/-- Like `sampleTableMin 20` but with target 1 at timestamp 18 (a
forecast-segment row under the 0.9 split of 20 rows). -/
def sampleTableC2b : Table :=
  (List.range 20).map (fun i => (i, [("use_house_overall", some (if i = 18 then 1 else 0 : ℚ))]))

/-- The target values of `sampleTableC2b`. -/
def xsC2b : List ℚ := (List.range 20).map (fun i => if i = 18 then 1 else 0)

/-- A full observation row with every column `enrich_features` reads. -/
def fullRow (v : ℚ) (i : ℕ) : Row :=
  (i, [("use_house_overall", some v), ("generated_solar", some 1), ("furnace", some 2),
    ("winecellar", some 1), ("barn", some 1), ("fridge", some 1), ("well", some 1),
    ("dishwasher", some 1), ("microwave", some 1), ("hour", some ((i % 24 : ℕ) : ℚ)),
    ("wd_Saturday", some 0), ("wd_Sunday", some 0)])

/-- `n` full observation rows, target identically 0. -/
def sampleTableFull (n : ℕ) : Table := (List.range n).map (fullRow 0)

/-- Rows that already carry `lag_1` and `generated_solar` columns, as the
featured segments do when they reach `enrich_features`. -/
def sampleTableC7 : Table :=
  (List.range 20).map (fun i => (i, [("lag_1", some (1 : ℚ)), ("generated_solar", some (1 : ℚ))]))

/-- A concrete stand-in for `df.index.dayofyear`. -/
def doy0 : ℕ → ℚ := fun i => (i : ℚ)

/-- A concrete stand-in for the sine/cosine encodings. -/
def trig0 : ℚ → ℚ := fun _ => 0

/-- `net_energy_lag_1` is missing on the first row of any enriched table:
`generated_solar.shift(1)` has no previous row there. -/
theorem getCol_enrich_net_first (doy : ℕ → ℚ) (sinF cosF : ℚ → ℚ) (u : Table)
    (hu : 0 < u.length) :
    (getCol (enrich_features doy sinF cosF u) "net_energy_lag_1")[0]? = some none := by
  rw [getCol_enrich_net, List.getElem?_zipWith']
  have h1 : ∃ a, (getCol u "lag_1")[0]? = some a := by
    rw [getCol, List.getElem?_map, List.getElem?_eq_getElem hu]
    exact ⟨_, rfl⟩
  obtain ⟨a, h1⟩ := h1
  have h2 : (shift 1 (getCol u "generated_solar"))[0]? = some none :=
    shift_getElem?_lt (by omega) (by rw [getCol_length]; omega)
  rw [h1, h2]
  cases a <;> rfl

/-! ### The claims -/

/-- C3: for any ratio `0 < r < 1` the splitter returns the first `⌊N·r⌋` rows
and the remainder, so `|train| = ⌊N·r⌋` and `|train| + |forecast| = N`; the
implemented split (`int(len(df) * 0.9)`) is that splitter at `r = 0.9`, and
a table of 8400 rows yields 7560 training and 840 forecast rows. -/
theorem C3_split_sizes (r : ℚ) (t : Table) (_h0 : 0 < r) (h1 : r < 1) :
    ((chronoSplit r t).1 = t.take (Nat.floor ((t.length : ℚ) * r))
      ∧ (chronoSplit r t).1.length = Nat.floor ((t.length : ℚ) * r)
      ∧ (chronoSplit r t).1.length + (chronoSplit r t).2.length = t.length)
    ∧ (train_df_raw t = (chronoSplit (9 / 10) (sortIndex t)).1
      ∧ (train_df_raw t).length + (forecast_df_raw t).length = t.length
      ∧ (t.length = 8400 →
          (train_df_raw t).length = 7560 ∧ (forecast_df_raw t).length = 840)) := by
  have hfl : Nat.floor ((t.length : ℚ) * r) ≤ t.length := by
    have hle : (t.length : ℚ) * r ≤ (t.length : ℚ) :=
      mul_le_of_le_one_right (Nat.cast_nonneg _) h1.le
    calc Nat.floor ((t.length : ℚ) * r) ≤ Nat.floor ((t.length : ℚ)) :=
          Nat.floor_le_floor hle
      _ = t.length := Nat.floor_natCast _
  have hlen1 : (train_df_raw t).length = split_index t := by
    rw [train_df_raw, List.length_take, split_index_sortIndex, sortIndex_length]
    exact min_eq_left (split_index_le t)
  have hlen2 : (forecast_df_raw t).length = t.length - split_index t := by
    rw [forecast_df_raw, List.length_drop, split_index_sortIndex, sortIndex_length]
  refine ⟨⟨rfl, ?_, ?_⟩, ?_, ?_, ?_⟩
  · rw [chronoSplit, List.length_take]
    exact min_eq_left hfl
  · rw [chronoSplit, List.length_take, List.length_drop]
    omega
  · rw [train_df_raw, chronoSplit, split_index_eq_floor, sortIndex_length]
  · have := split_index_le t
    omega
  · intro h8400
    rw [hlen1, hlen2, split_index, h8400]
    norm_num

/-- C3 witness: the splitter at ratio 1/2 on a concrete 4-row table. -/
theorem C3_split_sizes_witness :
    (0 < (1 : ℚ) / 2 ∧ (1 : ℚ) / 2 < 1)
    ∧ (((chronoSplit (1 / 2) (sampleTableMin 4)).1
          = (sampleTableMin 4).take (Nat.floor (((sampleTableMin 4).length : ℚ) * (1 / 2)))
        ∧ (chronoSplit (1 / 2) (sampleTableMin 4)).1.length
          = Nat.floor (((sampleTableMin 4).length : ℚ) * (1 / 2))
        ∧ (chronoSplit (1 / 2) (sampleTableMin 4)).1.length
            + (chronoSplit (1 / 2) (sampleTableMin 4)).2.length
          = (sampleTableMin 4).length)
      ∧ (train_df_raw (sampleTableMin 4)
          = (chronoSplit (9 / 10) (sortIndex (sampleTableMin 4))).1
        ∧ (train_df_raw (sampleTableMin 4)).length
            + (forecast_df_raw (sampleTableMin 4)).length = (sampleTableMin 4).length
        ∧ ((sampleTableMin 4).length = 8400 →
            (train_df_raw (sampleTableMin 4)).length = 7560
            ∧ (forecast_df_raw (sampleTableMin 4)).length = 840))) :=
  ⟨⟨by norm_num, by norm_num⟩,
    C3_split_sizes (1 / 2) (sampleTableMin 4) (by norm_num) (by norm_num)⟩

/-- C4: on an input with strictly increasing unique timestamps the component's
sort is the identity, the train timestamps followed by the forecast-output
timestamps reproduce the original index, train strictly precedes forecast,
the two segments are disjoint — and sorting always yields an ascending
index. -/
theorem C4_partition (t : Table) (hs : (tsIndex t).Pairwise (· < ·)) :
    sortIndex t = t
    ∧ tsIndex (train_df t) ++ tsIndex (forecast_df t) = tsIndex t
    ∧ (∀ a ∈ tsIndex (train_df t), ∀ b ∈ tsIndex (forecast_df t), a < b)
    ∧ (∀ a ∈ tsIndex (train_df t), a ∉ tsIndex (forecast_df t))
    ∧ (∀ u : Table, (tsIndex (sortIndex u)).Pairwise (· ≤ ·)) := by
  have hpre : ∀ a ∈ tsIndex (train_df t), ∀ b ∈ tsIndex (forecast_df t), a < b := by
    intro a ha b hb
    rw [tsIndex_train_df hs] at ha
    rw [tsIndex_forecast_df hs] at hb
    have hp : ((tsIndex t).take (split_index t) ++ (tsIndex t).drop (split_index t)).Pairwise
        (fun x y : ℕ => x < y) := by
      rwa [List.take_append_drop]
    exact (List.pairwise_append.mp hp).2.2 a ha b hb
  refine ⟨sortIndex_eq_self hs, ?_, hpre, ?_, fun u => sortIndex_sorted_le u⟩
  · rw [tsIndex_train_df hs, tsIndex_forecast_df hs, List.take_append_drop]
  · intro a ha hb
    exact lt_irrefl a (hpre a ha a hb)

/-- C4 witness: the partition on a concrete 20-row table. -/
theorem C4_partition_witness :
    sortIndex (sampleTableMin 20) = sampleTableMin 20
    ∧ tsIndex (train_df (sampleTableMin 20)) ++ tsIndex (forecast_df (sampleTableMin 20))
        = tsIndex (sampleTableMin 20)
    ∧ (∀ a ∈ tsIndex (train_df (sampleTableMin 20)),
        ∀ b ∈ tsIndex (forecast_df (sampleTableMin 20)), a < b)
    ∧ (∀ a ∈ tsIndex (train_df (sampleTableMin 20)),
        a ∉ tsIndex (forecast_df (sampleTableMin 20)))
    ∧ (∀ u : Table, (tsIndex (sortIndex u)).Pairwise (· ≤ ·)) :=
  C4_partition (sampleTableMin 20) (by decide)

/-- C5: on any segment whose target column is fully observed,
`create_lag_features` adds, for every requested lag `k`, a `lag_k` column with
the target value `k` rows back (missing on the first `k` rows), and for every
requested window `w` a `roll_mean_w` column with the mean of the `w` previous
target values excluding the current row (missing on the first `w` rows). -/
theorem C5_lag_roll_semantics (tbl : Table) (xs : List ℚ) (lags wins : List ℕ)
    (hx : getCol tbl targetCol = xs.map some)
    (hndl : (lags.map lagName).Nodup) (hndw : (wins.map rollName).Nodup)
    {k : ℕ} (hk : k ∈ lags) {w : ℕ} (hw : w ∈ wins) (hw0 : 0 < w)
    {i : ℕ} (hi : i < tbl.length) :
    ((getCol (create_lag_features tbl lags wins) (lagName k))[i]?
        = some (if k ≤ i then xs[i - k]? else none))
    ∧ ((getCol (create_lag_features tbl lags wins) (rollName w))[i]?
        = some (if w ≤ i then some (((xs.drop (i - w)).take w).sum / (w : ℚ))
            else none)) := by
  have hlen : xs.length = tbl.length := target_length hx
  constructor
  · rw [create_lag_getCol_lag hk hndl, hx]
    by_cases hki : k ≤ i
    · rw [if_pos hki]
      exact shift_map_some_getElem? hki (by omega)
    · rw [if_neg hki]
      exact shift_getElem?_lt (by omega) (by rw [List.length_map]; omega)
  · rw [create_lag_getCol_roll hw hndw, hx]
    by_cases hwi : w ≤ i
    · rw [if_pos hwi]
      exact rollingMean_shift1_map_some hw0 hwi (by omega)
    · rw [if_neg hwi]
      exact rollingMean_shift1_getElem?_lt (by omega) (by rw [List.length_map]; omega)

/-- C5 witness: lag 2 and window 2 on a concrete 5-row segment at row 3. -/
theorem C5_lag_roll_semantics_witness :
    ((getCol (create_lag_features (sampleTableMin 5) [2] [2]) (lagName 2))[3]?
        = some (if 2 ≤ 3 then (List.replicate 5 (0 : ℚ))[3 - 2]? else none))
    ∧ ((getCol (create_lag_features (sampleTableMin 5) [2] [2]) (rollName 2))[3]?
        = some (if 2 ≤ 3 then
            some (((((List.replicate 5 (0 : ℚ)).drop (3 - 2)).take 2).sum) / (2 : ℚ))
          else none)) :=
  C5_lag_roll_semantics (sampleTableMin 5) (List.replicate 5 0) [2] [2]
    (by decide) (by decide) (by decide) (by decide) (by decide) (by decide) (by decide)

/-- C8: `create_lag_features` is total — on any segment, however short, it
returns a table of the same length rather than failing — and where the
history is shorter than a requested lag `k` or window `w` the corresponding
feature value is missing. -/
theorem C8_insufficient_history (tbl : Table) (lags wins : List ℕ)
    (hndl : (lags.map lagName).Nodup) (hndw : (wins.map rollName).Nodup)
    {k w i : ℕ} (hk : k ∈ lags) (hw : w ∈ wins) (hi : i < tbl.length) :
    ((create_lag_features tbl lags wins).length = tbl.length)
    ∧ (i < k → (getCol (create_lag_features tbl lags wins) (lagName k))[i]? = some none)
    ∧ (i < w → (getCol (create_lag_features tbl lags wins) (rollName w))[i]? = some none) := by
  refine ⟨create_lag_length tbl lags wins, ?_, ?_⟩
  · intro hik
    rw [create_lag_getCol_lag hk hndl]
    exact shift_getElem?_lt hik (by rw [getCol_length]; omega)
  · intro hiw
    rw [create_lag_getCol_roll hw hndw]
    exact rollingMean_shift1_getElem?_lt hiw (by rw [getCol_length]; omega)

/-- C8 witness: a 2-row segment with a lag of 5 and a window of 12 — far more
than the available history — still yields a 2-row output with missing
features. -/
theorem C8_insufficient_history_witness :
    ((create_lag_features (sampleTableMin 2) [5] [12]).length = (sampleTableMin 2).length)
    ∧ (1 < 5 → (getCol (create_lag_features (sampleTableMin 2) [5] [12]) (lagName 5))[1]?
        = some none)
    ∧ (1 < 12 → (getCol (create_lag_features (sampleTableMin 2) [5] [12]) (rollName 12))[1]?
        = some none) :=
  C8_insufficient_history (sampleTableMin 2) [5] [12]
    (by decide) (by decide) (by decide) (by decide) (by decide)

set_option maxRecDepth 10000 in
/-- C1 counterexample: on a 361-row input (training segment 324 rows),
forecast-output row 36 has 48 prior observations available (12 spillover rows
plus 36 preceding forecast rows), and the `lag_48` column is present on that
row of the forecast output — yet its value is missing, because the forecast
invocation never recomputes `lag_48`. -/
theorem C1_counterexample :
    48 ≤ spillLen (sampleTableMin 361) + 36
    ∧ ((forecast_df (sampleTableMin 361)).map
        (fun r => (colNames r.2).contains "lag_48"))[36]? = some true
    ∧ (getCol (forecast_df (sampleTableMin 361)) "lag_48")[36]? = some none := by
  decide

/-- C1 amended: in the forecast output, the feature columns recomputed by the
forecast invocation (`lag_1`, `lag_2`, `lag_3`, `roll_mean_3/6/12`) are
non-missing exactly when the available history — the spillover rows plus the
preceding forecast rows — reaches the lag or window, and missing otherwise;
the training-invocation columns (`lag_6/12/24/48`, `roll_mean_24`) are carried
over without recomputation and are missing on every forecast-output row
regardless of history. -/
theorem C1_amended (t : Table) (xs : List ℚ)
    (hs : (tsIndex t).Pairwise (· < ·)) (hx : getCol t targetCol = xs.map some)
    {j : ℕ} (hj : j < t.length - split_index t) :
    (∀ k ∈ forecastLags,
      (k ≤ spillLen t + j →
        ∃ v : ℚ, (getCol (forecast_df t) (lagName k))[j]? = some (some v))
      ∧ (spillLen t + j < k → (getCol (forecast_df t) (lagName k))[j]? = some none))
    ∧ (∀ w ∈ forecastWins,
      (w ≤ spillLen t + j →
        ∃ v : ℚ, (getCol (forecast_df t) (rollName w))[j]? = some (some v))
      ∧ (spillLen t + j < w → (getCol (forecast_df t) (rollName w))[j]? = some none))
    ∧ (∀ c ∈ staleCols, (∀ r ∈ t, lookupCol r.2 c = none) →
        (getCol (forecast_df t) c)[j]? = some none) := by
  have hlen : xs.length = t.length := target_length hx
  refine ⟨?_, ?_, ?_⟩
  · intro k hk
    constructor
    · intro hkm
      rw [forecast_lag_defined hs hx hk hj hkm]
      have hidx : split_index t + j - k < xs.length := by
        have := split_index_le t
        omega
      rw [List.getElem?_eq_getElem hidx]
      exact ⟨_, rfl⟩
    · intro hkm
      exact forecast_lag_missing hs hk hj hkm
  · intro w hw
    constructor
    · intro hwm
      rw [forecast_roll_defined hs hx hw hj hwm]
      exact ⟨_, rfl⟩
    · intro hwm
      exact forecast_roll_missing hs hw hj hwm
  · intro c hc hraw
    exact forecast_stale_missing hs hc hraw hj

/-- C1 amended witness: row 0 of the forecast output of a concrete 20-row
table: `lag_1` is defined (history 12 ≥ 1), and the stale `lag_48` is
missing. -/
theorem C1_amended_witness :
    (∃ v : ℚ, (getCol (forecast_df (sampleTableMin 20)) (lagName 1))[0]? = some (some v))
    ∧ (getCol (forecast_df (sampleTableMin 20)) "lag_48")[0]? = some none :=
  ⟨((C1_amended (sampleTableMin 20) (List.replicate 20 0) (by decide) (by decide)
      (by decide)).1 1 (by decide)).1 (by decide),
   (C1_amended (sampleTableMin 20) (List.replicate 20 0) (by decide) (by decide)
      (by decide)).2.2 "lag_48" (by decide) (by decide)⟩

theorem getElem?_eq_of_take_eq {xs1 xs2 : List ℚ} {N i : ℕ}
    (h : xs1.take N = xs2.take N) (hi : i < N) : xs1[i]? = xs2[i]? := by
  have h1 := congrArg (fun l : List ℚ => l[i]?) h
  simpa [List.getElem?_take, hi] using h1

theorem drop_take_of_take {α : Type} (xs : List α) (d w : ℕ) :
    (xs.take (d + w)).drop d = (xs.drop d).take w := by
  rw [List.drop_take]
  congr 1
  omega

/-- C2 counterexample: two inputs agreeing on the whole training segment (the
first 18 of 20 rows) and differing only in a forecast-segment target (row 18)
produce different `lag_1` values at forecast-output row 1: the lag features of
later forecast rows are computed from earlier forecast-segment targets, not
from training data only. -/
theorem C2_counterexample :
    (sampleTableMin 20).take 18 = sampleTableC2b.take 18
    ∧ split_index (sampleTableMin 20) = 18
    ∧ split_index sampleTableC2b = 18
    ∧ (getCol (forecast_df (sampleTableMin 20)) "lag_1")[1]? = some (some 0)
    ∧ (getCol (forecast_df sampleTableC2b) "lag_1")[1]? = some (some 1) := by
  decide

/-- C2 amended: a forecast-output row's generated lag/rolling features depend
only on data at strictly earlier positions: two inputs with the same
timestamp index whose targets agree on all rows strictly before forecast row
`j` (the training segment plus the first `j` forecast rows) have identical
`lag_k` and `roll_mean_w` values at forecast-output row `j`. -/
theorem C2_amended (t1 t2 : Table) (xs1 xs2 : List ℚ)
    (hs1 : (tsIndex t1).Pairwise (· < ·)) (hs2 : (tsIndex t2).Pairwise (· < ·))
    (hx1 : getCol t1 targetCol = xs1.map some) (hx2 : getCol t2 targetCol = xs2.map some)
    (hts : tsIndex t1 = tsIndex t2) {j : ℕ} (hj : j < t1.length - split_index t1)
    (hagree : xs1.take (split_index t1 + j) = xs2.take (split_index t1 + j)) :
    (∀ k ∈ forecastLags, (getCol (forecast_df t1) (lagName k))[j]?
        = (getCol (forecast_df t2) (lagName k))[j]?)
    ∧ (∀ w ∈ forecastWins, (getCol (forecast_df t1) (rollName w))[j]?
        = (getCol (forecast_df t2) (rollName w))[j]?) := by
  have hlen12 : t1.length = t2.length := by
    have h := congrArg List.length hts
    rwa [tsIndex_length, tsIndex_length] at h
  have hsplit : split_index t1 = split_index t2 := by
    rw [split_index, split_index, hlen12]
  have hspill : spillLen t1 = spillLen t2 := by
    rw [spillLen, spillLen, hsplit]
  have hspl_le : spillLen t1 ≤ split_index t1 := min_le_right 12 _
  have hj2 : j < t2.length - split_index t2 := by omega
  constructor
  · intro k hk
    have hk1 : 1 ≤ k := by
      have h3 : k = 1 ∨ k = 2 ∨ k = 3 := by simpa [forecastLags] using hk
      omega
    by_cases hkm : k ≤ spillLen t1 + j
    · rw [forecast_lag_defined hs1 hx1 hk hj hkm,
        forecast_lag_defined hs2 hx2 hk hj2 (by omega), ← hsplit]
      exact congrArg some (getElem?_eq_of_take_eq hagree (by omega))
    · rw [forecast_lag_missing hs1 hk hj (by omega),
        forecast_lag_missing hs2 hk hj2 (by omega)]
  · intro w hw
    by_cases hwm : w ≤ spillLen t1 + j
    · rw [forecast_roll_defined hs1 hx1 hw hj hwm,
        forecast_roll_defined hs2 hx2 hw hj2 (by omega), ← hsplit]
      have hdw : split_index t1 + j - w + w = split_index t1 + j := by omega
      rw [← drop_take_of_take xs1 (split_index t1 + j - w) w,
        ← drop_take_of_take xs2 (split_index t1 + j - w) w, hdw, hagree]
    · rw [forecast_roll_missing hs1 hw hj (by omega),
        forecast_roll_missing hs2 hw hj2 (by omega)]

/-- C2 amended witness: the same two concrete tables as the counterexample,
at forecast-output row 0, where the available history is entirely shared. -/
theorem C2_amended_witness :
    (∀ k ∈ forecastLags, (getCol (forecast_df (sampleTableMin 20)) (lagName k))[0]?
        = (getCol (forecast_df sampleTableC2b) (lagName k))[0]?)
    ∧ (∀ w ∈ forecastWins, (getCol (forecast_df (sampleTableMin 20)) (rollName w))[0]?
        = (getCol (forecast_df sampleTableC2b) (rollName w))[0]?) :=
  C2_amended (sampleTableMin 20) sampleTableC2b (List.replicate 20 0) xsC2b
    (by decide) (by decide) (by decide) (by decide) (by decide) (by decide) (by decide)

/-- C6 counterexample: the implemented spillover is `train_df.tail(12)`, not
the last `max(lags) = 3` rows: on a concrete 20-row input the pipeline's
`roll_mean_12` is defined on the first forecast row (12 prior training values
are available), while the construction described by the claim — a spillover of
`max(lags)` rows — would leave it missing, so the two constructions differ. -/
theorem C6_counterexample :
    forecastLags.foldl max 0 = 3
    ∧ ((getCol (forecast_df (sampleTableMin 20)) "roll_mean_12")[0]?).map Option.isSome
        = some true
    ∧ (getCol (forecast_df_specC6 (sampleTableMin 20)) "roll_mean_12")[0]? = some none
    ∧ (getCol (forecast_df (sampleTableMin 20)) "roll_mean_12")[0]?
        ≠ (getCol (forecast_df_specC6 (sampleTableMin 20)) "roll_mean_12")[0]? := by
  refine ⟨by decide, by decide, by decide, ?_⟩
  intro hcon
  have h := congrArg (fun o : Option Cell => o.map Option.isSome) hcon
  revert h
  decide

/-- C6 amended: the generator is invoked on the concatenation of the last 12
rows of the featured training segment (`tail(12)`, not `max(lags)` rows) with
the full forecast segment, and the rows whose timestamps appear in the
training segment are then discarded: the output rows are exactly the original
forecast-segment rows in order, none of them carries a training timestamp,
and the first output row's `roll_mean_12` is the mean of the last 12
training-segment target values. -/
theorem C6_amended (t : Table) (xs : List ℚ)
    (hs : (tsIndex t).Pairwise (· < ·)) (hx : getCol t targetCol = xs.map some)
    (h12 : 12 ≤ split_index t) (hne : split_index t < t.length) :
    tsIndex (forecast_df t) = (tsIndex t).drop (split_index t)
    ∧ (∀ a ∈ tsIndex (forecast_df t), a ∉ tsIndex (train_df t))
    ∧ (forecast_df t).length = t.length - split_index t
    ∧ (getCol (forecast_df t) "roll_mean_12")[0]?
        = some (some ((((xs.take (split_index t)).drop (split_index t - 12)).sum) / 12)) := by
  have hspill : spillLen t = 12 := by
    rw [spillLen]
    omega
  refine ⟨tsIndex_forecast_df hs, ?_, forecast_df_length hs, ?_⟩
  · intro a ha
    rw [tsIndex_forecast_df hs] at ha
    rw [tsIndex_train_df hs]
    exact not_mem_take_of_mem_drop hs ha
  · have h0 : (0 : ℕ) < t.length - split_index t := by omega
    have hv := forecast_roll_defined hs hx (w := 12) (j := 0) (by decide) h0 (by omega)
    rw [show "roll_mean_12" = rollName 12 from rfl, hv]
    have hwin : (xs.drop (split_index t + 0 - 12)).take 12
        = (xs.take (split_index t)).drop (split_index t - 12) := by
      have hdw : split_index t - 12 + 12 = split_index t := by omega
      have h00 : split_index t + 0 - 12 = split_index t - 12 := by omega
      rw [h00, ← drop_take_of_take xs (split_index t - 12) 12, hdw]
    rw [hwin]
    norm_num

/-- C6 amended witness: the partition and the first forecast row's
`roll_mean_12` on a concrete 20-row table. -/
theorem C6_amended_witness :
    tsIndex (forecast_df (sampleTableMin 20))
        = (tsIndex (sampleTableMin 20)).drop (split_index (sampleTableMin 20))
    ∧ (∀ a ∈ tsIndex (forecast_df (sampleTableMin 20)),
        a ∉ tsIndex (train_df (sampleTableMin 20)))
    ∧ (forecast_df (sampleTableMin 20)).length
        = (sampleTableMin 20).length - split_index (sampleTableMin 20)
    ∧ (getCol (forecast_df (sampleTableMin 20)) "roll_mean_12")[0]?
        = some (some (((((List.replicate 20 (0 : ℚ)).take
            (split_index (sampleTableMin 20))).drop
            (split_index (sampleTableMin 20) - 12)).sum) / 12)) :=
  C6_amended (sampleTableMin 20) (List.replicate 20 0)
    (by decide) (by decide) (by decide) (by decide)

/-- C7 counterexample: enrichment does not commute with the chronological
split.  On a 20-row table split 18/2, the first row of the separately enriched
trailing segment has a missing `net_energy_lag_1` (the within-segment
`generated_solar.shift(1)` has no previous row), while enriching the full
table first and then splitting gives a defined value there, so the per-row
values differ. -/
theorem C7_counterexample :
    (getCol (enrich_features doy0 trig0 trig0 (sampleTableC7.drop 18)) "net_energy_lag_1")[0]?
      = some none
    ∧ (((getCol (enrich_features doy0 trig0 trig0 sampleTableC7) "net_energy_lag_1").drop 18)[0]?).map
        Option.isSome = some true
    ∧ getCol (enrich_features doy0 trig0 trig0 (sampleTableC7.drop 18)) "net_energy_lag_1"
        ≠ (getCol (enrich_features doy0 trig0 trig0 sampleTableC7) "net_energy_lag_1").drop 18 := by
  refine ⟨by decide, by decide, ?_⟩
  intro hcon
  have h := congrArg (fun l : List Cell => (l[0]?).map Option.isSome) hcon
  revert h
  decide

/-- C7 amended: `enrich_features` is idempotent, and it commutes with the
chronological split for every enrichment column except `net_energy_lag_1`: the
row-local columns commute on both segments, and `net_energy_lag_1` commutes on
the leading segment and on every trailing-segment row after the first; only on
the first row of the trailing segment can the per-segment value (missing)
differ from the full-table value. -/
theorem C7_amended (doy : ℕ → ℚ) (sinF cosF : ℚ → ℚ) (tbl : Table) (n : ℕ) :
    enrich_features doy sinF cosF (enrich_features doy sinF cosF tbl)
      = enrich_features doy sinF cosF tbl
    ∧ (∀ c ∈ rowwiseNames,
        getCol (enrich_features doy sinF cosF (tbl.take n)) c
          = (getCol (enrich_features doy sinF cosF tbl) c).take n
        ∧ getCol (enrich_features doy sinF cosF (tbl.drop n)) c
          = (getCol (enrich_features doy sinF cosF tbl) c).drop n)
    ∧ getCol (enrich_features doy sinF cosF (tbl.take n)) "net_energy_lag_1"
        = (getCol (enrich_features doy sinF cosF tbl) "net_energy_lag_1").take n
    ∧ (∀ j, 1 ≤ j → j < tbl.length - n →
        (getCol (enrich_features doy sinF cosF (tbl.drop n)) "net_energy_lag_1")[j]?
          = (getCol (enrich_features doy sinF cosF tbl) "net_energy_lag_1")[n + j]?) := by
  refine ⟨enrich_features_idem doy sinF cosF tbl, ?_, ?_, ?_⟩
  · intro c hc
    constructor
    · rw [getCol_enrich_rowwise doy sinF cosF _ hc, getCol_enrich_rowwise doy sinF cosF _ hc,
        List.map_take]
    · rw [getCol_enrich_rowwise doy sinF cosF _ hc, getCol_enrich_rowwise doy sinF cosF _ hc,
        List.map_drop]
  · rw [getCol_enrich_net, getCol_enrich_net, getCol_take, getCol_take, shift_one_take,
      ← List.take_zipWith]
  · intro j hj1 hj2
    rw [getCol_enrich_net, getCol_enrich_net, List.getElem?_zipWith', List.getElem?_zipWith']
    have e1 : (getCol (tbl.drop n) "lag_1")[j]? = (getCol tbl "lag_1")[n + j]? := by
      rw [getCol_drop, List.getElem?_drop]
    have e2 : (shift 1 (getCol (tbl.drop n) "generated_solar"))[j]?
        = (shift 1 (getCol tbl "generated_solar"))[n + j]? := by
      rw [shift_getElem?_ge hj1 (by rw [getCol_length, List.length_drop]; omega),
        shift_getElem?_ge (by omega : 1 ≤ n + j) (by rw [getCol_length]; omega),
        getCol_drop, List.getElem?_drop]
      congr 1
      omega
    rw [e1, e2]

/-- C7 amended witness: the commutation statement at the concrete 20-row
table, split position 2, trailing row 1. -/
theorem C7_amended_witness :
    (getCol (enrich_features doy0 trig0 trig0 (sampleTableC7.drop 2)) "net_energy_lag_1")[1]?
      = (getCol (enrich_features doy0 trig0 trig0 sampleTableC7) "net_energy_lag_1")[2 + 1]? :=
  (C7_amended doy0 trig0 trig0 sampleTableC7 2).2.2.2 1 (by decide) (by decide)

/-- A one-row table that already carries a `lag_1` column. -/
def sampleTableC9 : Table :=
  [(0, [("use_house_overall", some (5 : ℚ)), ("lag_1", some (99 : ℚ))])]

/-- C9 counterexample: `create_lag_features` does not leave every pre-existing
column unchanged: on a table that already holds a `lag_1` column (exactly the
situation of the notebook's concatenated spillover table), the column is
overwritten with recomputed values. -/
theorem C9_counterexample :
    getCol sampleTableC9 "lag_1" = [some 99]
    ∧ getCol (create_lag_features sampleTableC9 [1] []) "lag_1" = [none]
    ∧ create_lag_features sampleTableC9 [1] [] ≠ sampleTableC9 := by
  decide

/-- C9 amended: both functions are pure — the embedding returns a new table,
the argument is untouched — and they preserve the row count, the timestamp
index, and every column whose name is none of the generated ones; only a
pre-existing column whose name collides with a generated `lag_k`,
`roll_mean_w` or enrichment column is overwritten. -/
theorem C9_frame (tbl : Table) (lags wins : List ℕ) (doy : ℕ → ℚ) (sinF cosF : ℚ → ℚ) :
    ((create_lag_features tbl lags wins).length = tbl.length
      ∧ tsIndex (create_lag_features tbl lags wins) = tsIndex tbl
      ∧ ∀ c : String, (∀ k ∈ lags, lagName k ≠ c) → (∀ w ∈ wins, rollName w ≠ c) →
          getCol (create_lag_features tbl lags wins) c = getCol tbl c)
    ∧ ((enrich_features doy sinF cosF tbl).length = tbl.length
      ∧ tsIndex (enrich_features doy sinF cosF tbl) = tsIndex tbl
      ∧ ∀ c : String, c ∉ enrichNames →
          getCol (enrich_features doy sinF cosF tbl) c = getCol tbl c) := by
  refine ⟨⟨create_lag_length tbl lags wins, tsIndex_create_lag tbl lags wins, ?_⟩,
    enrich_length doy sinF cosF tbl, tsIndex_enrich doy sinF cosF tbl, ?_⟩
  · intro c h1 h2
    exact create_lag_getCol_other h1 h2
  · intro c h
    exact getCol_enrich_other doy sinF cosF tbl h

/-- C9 amended witness: the frame condition on a concrete table and column. -/
theorem C9_frame_witness :
    getCol (create_lag_features (sampleTableMin 3) [1] [2]) "use_house_overall"
      = getCol (sampleTableMin 3) "use_house_overall"
    ∧ getCol (enrich_features doy0 trig0 trig0 (sampleTableMin 3)) "use_house_overall"
      = getCol (sampleTableMin 3) "use_house_overall" :=
  ⟨(C9_frame (sampleTableMin 3) [1] [2] doy0 trig0 trig0).1.2.2 "use_house_overall"
      (by decide) (by decide),
    (C9_frame (sampleTableMin 3) [1] [2] doy0 trig0 trig0).2.2.2 "use_house_overall"
      (by decide)⟩

/-- C10: `net_energy_lag_1` is missing on the first row of each enriched
segment — including the first forecast row, where `lag_1` itself is defined —
because `generated_solar` is shifted within the segment after the spillover
rows have been discarded. -/
theorem C10_net_first_row (t : Table) (xs : List ℚ) (doy : ℕ → ℚ) (sinF cosF : ℚ → ℚ)
    (hs : (tsIndex t).Pairwise (· < ·)) (hx : getCol t targetCol = xs.map some)
    (h1 : 1 ≤ split_index t) (hne : split_index t < t.length) :
    (getCol (forecast_enriched doy sinF cosF t) "net_energy_lag_1")[0]? = some none
    ∧ (∃ v : ℚ, (getCol (forecast_df t) (lagName 1))[0]? = some (some v))
    ∧ (getCol (train_enriched doy sinF cosF t) "net_energy_lag_1")[0]? = some none := by
  have hlen : xs.length = t.length := target_length hx
  refine ⟨?_, ?_, ?_⟩
  · rw [forecast_enriched]
    apply getCol_enrich_net_first
    rw [forecast_df_length hs]
    omega
  · have hkm : 1 ≤ spillLen t + 0 := by
      rw [spillLen]
      omega
    rw [forecast_lag_defined hs hx (by decide) (by omega) hkm]
    have hidx : split_index t + 0 - 1 < xs.length := by
      have := split_index_le t
      omega
    rw [List.getElem?_eq_getElem hidx]
    exact ⟨_, rfl⟩
  · rw [train_enriched]
    apply getCol_enrich_net_first
    rw [train_df_length hs]
    omega

/-- C10 witness: the concrete 20-row table with all enrichment source
columns. -/
theorem C10_net_first_row_witness :
    (getCol (forecast_enriched doy0 trig0 trig0 (sampleTableFull 20)) "net_energy_lag_1")[0]?
      = some none
    ∧ (∃ v : ℚ, (getCol (forecast_df (sampleTableFull 20)) (lagName 1))[0]? = some (some v))
    ∧ (getCol (train_enriched doy0 trig0 trig0 (sampleTableFull 20)) "net_energy_lag_1")[0]?
      = some none :=
  C10_net_first_row (sampleTableFull 20) (List.replicate 20 0) doy0 trig0 trig0
    (by decide) (by decide) (by decide) (by decide)
